import Mathlib

/-!
Verification of the return-tracking core of bslint
(src/plugins/trackCodeFlow/returnTracking.ts).

The data model and the four core operations (visitStatement, openBlock,
closeBlock, finalize) together with the pure helper branchesCount are
shallowly embedded below, translated directly from the TypeScript source.
The traversal driver, the LintState view object and the isBranchedBlock
classifier live outside the analyzed file (in trackCodeFlow/index.ts);
where they are needed they are modelled from the specification and are
marked as such in their doc comments.

Mutable TypeScript state is made explicit: the block stack, the captured
returns array and the diagnostics array form a TrackState record that
every operation threads through.  Frames are addressed by their index in
the stack (0 = top of stack), so the aliasing mutation of the original
(returnBlock.returns = true, parent.branches -= 1) becomes a functional
update at an index.
-/

namespace ReturnTracking

/-- A source range; only its end points matter to the analysis
(util.createRangeFromPositions in the source builds one from a start and
an end position). -/
structure Range where
  rs : Nat
  re : Nat
deriving DecidableEq, Repr

/-- Token kinds the analysis inspects: TokenKind.Void and
TokenKind.Function from brighterscript; every other kind is collapsed
into Sub (the other function-kind token) and Other (any other return
type token such as an integer annotation). -/
inductive TokenKind where
  | Void
  | Function
  | Sub
  | Other
deriving DecidableEq, Repr

/-- A token: a kind together with its source range. -/
structure Token where
  kind : TokenKind
  range : Range
deriving DecidableEq, Repr

/-- The slice of brighterscript FunctionExpression read by the linter:
functionType (the function/sub keyword token, optional), the parens and
the optional return type token. -/
structure FunctionExpression where
  functionType : Option Token
  leftParen : Token
  returnTypeToken : Option Token
  rightParen : Token
deriving DecidableEq, Repr

mutual
/-- Statement shapes distinguished by the analysis: comments, return
statements (whose operand, when present, may itself be a comment
placeholder, hence an OptStmt), if statements (then arm, else-if arms,
optional else arm), plain blocks, a non-if branch-capable construct
(tryBranched, modelled from the spec as the generic two-outcome
branch-introducing statement), and a catch-all leaf. Every statement
carries an optional source range. -/
inductive Stmt where
  | comment : Option Range → Stmt
  | ret : OptStmt → Option Range → Stmt
  | ifStmt : Stmt → StmtList → OptStmt → Option Range → Stmt
  | block : StmtList → Option Range → Stmt
  | tryBranched : StmtList → Option Range → Stmt
  | other : Option Range → Stmt

/-- Lists of statements (a mutual sibling of Stmt so that structural
recursion over the tree stays primitive). -/
inductive StmtList where
  | nil : StmtList
  | cons : Stmt → StmtList → StmtList

/-- An optional statement (mutual sibling of Stmt). -/
inductive OptStmt where
  | noneS : OptStmt
  | someS : Stmt → OptStmt
end

/-- Length of a statement list (s.elseIfs.length in the source). -/
def StmtList.length : StmtList → Nat
  | .nil => 0
  | .cons _ l => 1 + l.length

/-- isCommentStatement from brighterscript. -/
def isCommentStatement : Stmt → Bool
  | .comment _ => true
  | _ => false

/-- isReturnStatement from brighterscript. -/
def isReturnStatement : Stmt → Bool
  | .ret _ _ => true
  | _ => false

/-- isIfStatement from brighterscript. -/
def isIfStatement : Stmt → Bool
  | .ifStmt _ _ _ _ => true
  | _ => false

/-- The source range attached to a statement. -/
def Stmt.range : Stmt → Option Range
  | .comment r => r
  | .ret _ r => r
  | .ifStmt _ _ _ r => r
  | .block _ r => r
  | .tryBranched _ r => r
  | .other r => r

/-- The operand expression of a return statement (curr.stat.value). -/
def Stmt.value : Stmt → OptStmt
  | .ret v _ => v
  | _ => .noneS

/-- StatementInfo from trackCodeFlow: the per-open-block frame. branches
and returns start unset (undefined / falsy in the source). -/
structure StatementInfo where
  stat : Stmt
  branches : Option Int := none
  returns : Bool := false

/-- ReturnInfo from the source: one captured return statement and
whether it carries a value. -/
structure ReturnInfo where
  stat : Stmt
  hasValue : Bool

/-- The two severity configuration slots read by this linter
(severity.unreachableCode and severity.consistentReturn); severity
values themselves are opaque to the core. -/
structure BsLintRules where
  unreachableCode : Nat
  consistentReturn : Nat
deriving DecidableEq, Repr

/-- DiagnosticTag.Unnecessary from the LSP vocabulary. -/
inductive DiagnosticTag where
  | Unnecessary
deriving DecidableEq, Repr

/-- A produced diagnostic record: severity, numeric code, message,
optional source range, tags.  The file identity field of the original is
constant over one analysis and is omitted. -/
structure Diagnostic where
  severity : Nat
  code : Nat
  message : String
  range : Option Range
  tags : List DiagnosticTag
deriving DecidableEq, Repr

/-- ReturnLintError codes from the source enum. -/
def ReturnLintError.UnreachableCode : Nat := 2011

def ReturnLintError.ReturnValueUnexpected : Nat := 2012

def ReturnLintError.ReturnValueExpected : Nat := 2013

def ReturnLintError.UnsafeReturnValue : Nat := 2014

def ReturnLintError.ReturnValueRequired : Nat := 2015

def ReturnLintError.ReturnValueMissing : Nat := 2016

def ReturnLintError.LastReturnValueMissing : Nat := 2017

/-- The mutable analysis state owned by one createReturnLinter instance:
the stack of open block frames (head = top of stack = innermost block),
the captured returns array and the diagnostics array. -/
structure TrackState where
  stack : List StatementInfo
  returns : List ReturnInfo
  diagnostics : List Diagnostic

/-- Modelled from the spec: the contextual stack-state object the
traversal driver exposes (LintState in trackCodeFlow/index.ts): the
current open frame (parent), and, when the current position is inside a
conditional arm, the if frame (ifs) and the arm frame (branch).  Frames
are referred to by index into TrackState.stack (0 = top). -/
structure LintState where
  parent : Option Nat
  ifs : Option Nat
  branch : Option Nat

/-- Modelled from the spec: scan the stack from the top for the nearest
enclosing conditional arm, i.e. the topmost adjacent pair of frames
whose lower member is an if statement; returns (armIndex, ifIndex). -/
def findArmAux : List StatementInfo → Nat → Option (Nat × Nat)
  | b :: i :: rest, k =>
      if isIfStatement i.stat then some (k, k + 1)
      else
        have _ := b
        findArmAux (i :: rest) (k + 1)
  | _, _ => none

/-- Modelled from the spec: the LintState view the driver maintains for
a given stack: parent is the top frame when the stack is non-empty; ifs
and branch are set when the current position is inside a conditional
arm. -/
def lintView (stack : List StatementInfo) : LintState :=
  { parent := if stack.isEmpty then none else some 0
    ifs := (findArmAux stack 0).map (fun p => p.2)
    branch := (findArmAux stack 0).map (fun p => p.1) }

/-- hasValue of a captured return:
not not curr.stat.value and not isCommentStatement(curr.stat.value). -/
def retHasValue (s : Stmt) : Bool :=
  match s.value with
  | .someS e => !isCommentStatement e
  | .noneS => false

/-- visitStatement from the source, as a state transformer.  state is
the driver view, st the analysis state, curr the visited statement
info. -/
def visitStatement (sv : BsLintRules) (state : LintState) (st : TrackState)
    (curr : StatementInfo) : TrackState :=
  let parentFrame := state.parent.bind fun i => st.stack[i]?
  if (parentFrame.map StatementInfo.returns).getD false then
    if isCommentStatement curr.stat then st
    else
      { st with diagnostics := st.diagnostics ++
          [{ severity := sv.unreachableCode
             code := ReturnLintError.UnreachableCode
             message := "Unreachable code"
             range := curr.stat.range
             tags := [DiagnosticTag.Unnecessary] }] }
  else if isReturnStatement curr.stat then
    let st1 := { st with returns := st.returns ++ [⟨curr.stat, retHasValue curr.stat⟩] }
    let returnBlock := if state.ifs.isSome then state.branch else state.parent
    match returnBlock with
    | some ri =>
        match st1.stack[ri]? with
        | some rb =>
            if parentFrame.bind StatementInfo.branches = some 1 then
              { st1 with stack := st1.stack.set ri { rb with returns := true } }
            else st1
        | none => st1
    | none => st1
  else st

/-- branchesCount from the source: an if statement opens
1 + elseIfs.length + 1 branches (the final +1 is the implicit else arm,
charged whether or not an explicit else is written); every other
branch-introducing statement opens 2. -/
def branchesCount (info : StatementInfo) : Int :=
  match info.stat with
  | .ifStmt _ el _ _ => 1 + (el.length : Int) + 1
  | _ => 2

/-- Modelled from the spec: the isBranchedBlock classifier from
trackCodeFlow/index.ts — a statement is branch-introducing when it is a
conditional construct (if) or the generic two-outcome branch-capable
construct. -/
def isBranchedBlock (block : StatementInfo) : Bool :=
  match block.stat with
  | .ifStmt _ _ _ _ => true
  | .tryBranched _ _ => true
  | _ => false

/-- openBlock from the source: set the fresh frame branch count. -/
def openBlock (block : StatementInfo) : StatementInfo :=
  if isBranchedBlock block then
    { block with branches := some (branchesCount block) }
  else
    { block with branches := some 1 }

/-- funRange computed by finalize: the signature range, from the start
of the function-kind token (falling back to the left paren) to the end
of the return type token (falling back to the right paren). -/
def funRange (fn : FunctionExpression) : Range :=
  { rs := ((fn.functionType).getD fn.leftParen).range.rs
    re := ((fn.returnTypeToken).getD fn.rightParen).range.re }

/-- finalize from the source, as a pure function from the captured
returns and the closed outermost frame to the list of diagnostics it
pushes (in push order). -/
def finalize (sv : BsLintRules) (fn : FunctionExpression)
    (returns : List ReturnInfo) (last : StatementInfo) : List Diagnostic :=
  let returnedValues := returns.filter (fun r => r.hasValue)
  let hasReturnedValue : Bool := decide (0 < returnedValues.length)
  let fr := funRange fn
  if (fn.returnTypeToken.map Token.kind) = some TokenKind.Void then
    if hasReturnedValue then
      returnedValues.map fun r =>
        { severity := sv.consistentReturn
          code := ReturnLintError.ReturnValueUnexpected
          message := "Function as void should not return a value"
          range := some ((r.stat.range).getD fr)
          tags := [] }
    else []
  else
    let requiresReturnValue : Bool :=
      fn.returnTypeToken.isSome
      || decide (0 < returnedValues.length)
      || (decide ((fn.functionType.map Token.kind) = some TokenKind.Function)
          && decide (0 < returns.length))
    let missingValue : Bool :=
      requiresReturnValue && decide (returnedValues.length ≠ returns.length)
    let missingBranches : Bool := !last.returns
    let unsafePart : List Diagnostic :=
      if (requiresReturnValue || hasReturnedValue)
          && (missingBranches || decide (returns.length = 0)) then
        [{ severity := sv.consistentReturn
           code := ReturnLintError.UnsafeReturnValue
           message := "Not all code paths return a value"
           range := some fr
           tags := [] }]
      else []
    let missingPart : List Diagnostic :=
      if missingValue then
        (returns.filter (fun r => !r.hasValue)).map fun r =>
          { severity := sv.consistentReturn
            code := ReturnLintError.ReturnValueMissing
            message := "This function should consistently return a value"
            range := some ((r.stat.range).getD fr)
            tags := [] }
      else []
    unsafePart ++ missingPart

/-- closeBlock from the source: reconcile the popped frame with the new
top of stack; with no parent left, run the finalizer. -/
def closeBlock (sv : BsLintRules) (fn : FunctionExpression)
    (st : TrackState) (closed : StatementInfo) : TrackState :=
  match st.stack with
  | [] => { st with diagnostics := st.diagnostics ++ finalize sv fn st.returns closed }
  | parent :: rest =>
      if isIfStatement closed.stat then
        if closed.branches = some 0 then
          { st with stack := { parent with returns := true } :: rest }
        else st
      else if closed.returns then
        if isIfStatement parent.stat then
          { st with stack :=
              { parent with branches := some ((parent.branches.getD 2) - 1) } :: rest }
        else st
      else st

/-- Pop the top frame and reconcile it with the rest of the stack via
closeBlock (the driver performs the pop, closeBlock sees the already
popped stack, as in trackCodeFlow/index.ts). -/
def popClose (sv : BsLintRules) (fn : FunctionExpression) (st : TrackState) : TrackState :=
  match st.stack with
  | [] => st
  | closed :: rest => closeBlock sv fn { st with stack := rest } closed

mutual
/-- Modelled from the spec: the external depth-first traversal driver.
Every statement is visited (visitStatement) before being opened; a
container statement (if, block, branched construct) is opened, its
children are traversed depth-first (for an if: the then arm, the
else-if arms, the optional else arm, each arm being a block statement
run like any other), and then it is popped and closed. -/
def runStmt (sv : BsLintRules) (fn : FunctionExpression) (st : TrackState)
    (s : Stmt) : TrackState :=
  let st1 := visitStatement sv (lintView st.stack) st { stat := s }
  match s with
  | .ifStmt t el e _ =>
      let st2 := { st1 with stack := openBlock { stat := s } :: st1.stack }
      let st3 := runStmt sv fn st2 t
      let st4 := runList sv fn st3 el
      let st5 := runOpt sv fn st4 e
      popClose sv fn st5
  | .block body _ =>
      let st2 := { st1 with stack := openBlock { stat := s } :: st1.stack }
      let st3 := runList sv fn st2 body
      popClose sv fn st3
  | .tryBranched arms _ =>
      let st2 := { st1 with stack := openBlock { stat := s } :: st1.stack }
      let st3 := runList sv fn st2 arms
      popClose sv fn st3
  | _ => st1

/-- Modelled from the spec: run a list of statements in source order. -/
def runList (sv : BsLintRules) (fn : FunctionExpression) (st : TrackState) :
    StmtList → TrackState
  | .nil => st
  | .cons s l => runList sv fn (runStmt sv fn st s) l

/-- Modelled from the spec: run an optional statement. -/
def runOpt (sv : BsLintRules) (fn : FunctionExpression) (st : TrackState) :
    OptStmt → TrackState
  | .noneS => st
  | .someS s => runStmt sv fn st s
end

/-- Modelled from the spec: one full analysis of a function body — the
outermost (function body) block is opened, its statements traversed and
its close invokes the finalizer; the result is the diagnostics pushed
over the whole run. -/
def runFunction (sv : BsLintRules) (fn : FunctionExpression)
    (body : StmtList) : List Diagnostic :=
  (runStmt sv fn ⟨[], [], []⟩ (Stmt.block body none)).diagnostics

/-! ### Specification-side execution paths

The claim about whole-function behaviour quantifies over functions "in
which every execution path ends in a value-carrying return statement".
That hypothesis is a semantic property of the statement tree, so it is
written out below following the specification's words, not the source
(the source never computes it). -/

/-- Modelled from the spec: the possible outcomes of executing a
statement (or statement list): return with a value, return without a
value, or fall through to the next statement. -/
inductive PathOutcome where
  | retValue
  | retEmpty
  | fallthrough
deriving DecidableEq, Repr

mutual
/-- Modelled from the spec: the set of execution outcomes of one
statement.  A conditional contributes each arm's outcomes, plus a
fallthrough for a missing else arm; the generic branched construct
contributes its arms' outcomes (fallthrough when it has none). -/
def stmtPaths : Stmt → List PathOutcome
  | .comment _ => [.fallthrough]
  | .other _ => [.fallthrough]
  | .ret (.someS e) _ => if isCommentStatement e then [.retEmpty] else [.retValue]
  | .ret .noneS _ => [.retEmpty]
  | .block body _ => listPaths body
  | .ifStmt t el e _ =>
      stmtPaths t ++ armsPaths el ++
        (match e with
         | .someS s => stmtPaths s
         | .noneS => [.fallthrough])
  | .tryBranched arms _ =>
      match arms with
      | .nil => [.fallthrough]
      | _ => armsPaths arms

/-- Modelled from the spec: the union of the outcomes of a list of
mutually exclusive arms. -/
def armsPaths : StmtList → List PathOutcome
  | .nil => []
  | .cons a l => stmtPaths a ++ armsPaths l

/-- Modelled from the spec: the outcomes of running a statement list in
order — a fallthrough of the head continues into the tail. -/
def listPaths : StmtList → List PathOutcome
  | .nil => [.fallthrough]
  | .cons s l =>
      (stmtPaths s).flatMap fun o =>
        match o with
        | .fallthrough => listPaths l
        | o => [o]
end

/-- Modelled from the spec: every execution path of the body ends in a
value-carrying return. -/
def allPathsReturnValue (body : StmtList) : Bool :=
  (listPaths body).all fun o => o == PathOutcome.retValue

/-! ### Clean trees

The predicates below single out the statement trees on which the
analysis is provably silent: every return carries a (non-comment)
value, branching happens through if constructs whose arms are blocks,
every block that completes (all paths return) is followed by nothing
but comments, and an if whose arms all return is the last (non-comment)
statement of its block.  They drive the zero-diagnostics theorem. -/

mutual
/-- A statement after which control can never continue: a value-carrying
return, or an if with an explicit else all of whose arms are closed. -/
def terminalStmt : Stmt → Bool
  | .ret (.someS e) _ => !isCommentStatement e
  | .ifStmt t el (.someS e) _ => closedArm t && closedArms el && closedArm e
  | _ => false

/-- A conditional arm that always returns: a block with a closed body. -/
def closedArm : Stmt → Bool
  | .block body _ => closedList body
  | _ => false

/-- A conditional arm that never completes a return at its end: a block
whose body is an open clean list. -/
def openArm : Stmt → Bool
  | .block body _ => openList body
  | _ => false

/-- All arms closed. -/
def closedArms : StmtList → Bool
  | .nil => true
  | .cons a l => closedArm a && closedArms l

/-- All arms clean (each closed or open). -/
def cleanArms : StmtList → Bool
  | .nil => true
  | .cons a l => (closedArm a || openArm a) && cleanArms l

/-- A statement that execution can fall through and that the analysis
passes silently: a comment, a leaf, or an if whose arms are clean and
which is not fully closed (so it never completes its parent). -/
def openCleanStmt : Stmt → Bool
  | .comment _ => true
  | .other _ => true
  | .ifStmt t el .noneS _ => (closedArm t || openArm t) && cleanArms el
  | .ifStmt t el (.someS e) _ =>
      (closedArm t || openArm t) && cleanArms el && (closedArm e || openArm e)
      && !(closedArm t && closedArms el && closedArm e)
  | _ => false

/-- A list all of whose members are open clean statements. -/
def openList : StmtList → Bool
  | .nil => true
  | .cons s l => openCleanStmt s && openList l

/-- A list every path of which returns a value, with nothing but
comments after the point where all paths have returned. -/
def closedList : StmtList → Bool
  | .nil => false
  | .cons s l =>
      (terminalStmt s && commentsOnly l) || (openCleanStmt s && closedList l)

/-- A list of comment statements. -/
def commentsOnly : StmtList → Bool
  | .nil => true
  | .cons (.comment _) l => commentsOnly l
  | .cons _ _ => false
end

/-- The number of closed arms in a list of arms. -/
def closedCountArms : StmtList → Nat
  | .nil => 0
  | .cons a l => (closedArm a).toNat + closedCountArms l

/-! ### Helper lemmas about the individual operations -/

/-- A comment statement is never a return statement. -/
theorem comment_not_return {s : Stmt} (hc : isCommentStatement s = true) :
    isReturnStatement s = false := by
  cases s <;> simp_all [isCommentStatement, isReturnStatement]

/-- visitStatement does nothing when the enclosing frame has not
returned and the statement is not a return. -/
theorem visit_skip (sv : BsLintRules) (state : LintState) (st : TrackState)
    (curr : StatementInfo)
    (hg : (((state.parent.bind fun i => st.stack[i]?)).map StatementInfo.returns).getD false = false)
    (hnr : isReturnStatement curr.stat = false) :
    visitStatement sv state st curr = st := by
  simp only [visitStatement]
  rw [hg, hnr]
  simp

/-- visitStatement is the identity on comment statements, whatever the
state: a dead comment emits nothing, a live comment records nothing. -/
theorem visit_comment (sv : BsLintRules) (state : LintState) (st : TrackState)
    (curr : StatementInfo) (hc : isCommentStatement curr.stat = true) :
    visitStatement sv state st curr = st := by
  have hnr := comment_not_return hc
  simp only [visitStatement]
  rw [hc, hnr]
  simp

/-- The driver view of a non-empty stack points parent at the top. -/
theorem lintView_parent (h : StatementInfo) (rest : List StatementInfo) :
    (lintView (h :: rest)).parent = some 0 := rfl

/-- visitStatement under the driver view does nothing for a non-return
statement when the top frame has not returned. -/
theorem visit_head_not_return (sv : BsLintRules) (st : TrackState)
    (h : StatementInfo) (rest : List StatementInfo) (curr : StatementInfo)
    (hst : st.stack = h :: rest) (hr : h.returns = false)
    (hnr : isReturnStatement curr.stat = false) :
    visitStatement sv (lintView st.stack) st curr = st := by
  apply visit_skip
  · rw [hst, lintView_parent]
    simp [hr]
  · exact hnr

/-- visitStatement under the driver view does nothing for a non-return
statement on an empty stack. -/
theorem visit_empty_stack (sv : BsLintRules) (st : TrackState)
    (curr : StatementInfo) (hst : st.stack = [])
    (hnr : isReturnStatement curr.stat = false) :
    visitStatement sv (lintView st.stack) st curr = st := by
  apply visit_skip
  · rw [hst]
    rfl
  · exact hnr

/-- The stack shapes arising in a depth-first run: below the top frame
there is either nothing (the outermost block) or an if frame (the top
frame is one of its arms). -/
def GoodRest : List StatementInfo → Prop
  | [] => True
  | f :: _ => isIfStatement f.stat = true

/-- On a good stack the governing frame of a return — the arm frame
when inside a conditional arm, the parent otherwise — is the top. -/
theorem lintView_governing (h : StatementInfo) (rest : List StatementInfo)
    (hg : GoodRest rest) :
    (if (lintView (h :: rest)).ifs.isSome then (lintView (h :: rest)).branch
     else (lintView (h :: rest)).parent) = some 0 := by
  cases rest with
  | nil => rfl
  | cons f t =>
      have hf : isIfStatement f.stat = true := hg
      simp [lintView, findArmAux, hf]

/-- visitStatement on a live return under the driver view: the return
is recorded and the top frame (its governing block, whose branch count
is 1) is marked as returning. -/
theorem visit_return_head (sv : BsLintRules) (st : TrackState)
    (h : StatementInfo) (rest : List StatementInfo) (curr : StatementInfo)
    (v : OptStmt) (r : Option Range)
    (hst : st.stack = h :: rest) (hg : GoodRest rest) (hr : h.returns = false)
    (hb : h.branches = some 1) (hcur : curr.stat = .ret v r) :
    visitStatement sv (lintView st.stack) st curr =
      { stack := { h with returns := true } :: rest
        returns := st.returns ++ [⟨curr.stat, retHasValue curr.stat⟩]
        diagnostics := st.diagnostics } := by
  obtain ⟨stk, rets, dgs⟩ := st
  simp only at hst
  subst hst
  have hret : isReturnStatement curr.stat = true := by simp [hcur, isReturnStatement]
  cases rest with
  | nil => simp [visitStatement, lintView, findArmAux, hret, hr, hb]
  | cons f t =>
      have hf : isIfStatement f.stat = true := hg
      simp [visitStatement, lintView, findArmAux, hf, hret, hr, hb]

/-- closeBlock on the outermost frame: the finalizer runs. -/
theorem close_top (sv : BsLintRules) (fn : FunctionExpression) (st : TrackState)
    (closed : StatementInfo) (hst : st.stack = []) :
    closeBlock sv fn st closed =
      { st with diagnostics := st.diagnostics ++ finalize sv fn st.returns closed } := by
  unfold closeBlock
  rw [hst]

/-- closeBlock on a closed if whose branch count reached zero marks the
parent as returning. -/
theorem close_if_exhausted (sv : BsLintRules) (fn : FunctionExpression)
    (st : TrackState) (closed p : StatementInfo) (rest : List StatementInfo)
    (hst : st.stack = p :: rest) (hci : isIfStatement closed.stat = true)
    (hb : closed.branches = some 0) :
    closeBlock sv fn st closed = { st with stack := { p with returns := true } :: rest } := by
  unfold closeBlock
  rw [hst]
  simp [hci, hb]

/-- closeBlock on a closed if with branches remaining changes nothing. -/
theorem close_if_remaining (sv : BsLintRules) (fn : FunctionExpression)
    (st : TrackState) (closed p : StatementInfo) (rest : List StatementInfo)
    (hst : st.stack = p :: rest) (hci : isIfStatement closed.stat = true)
    (hb : closed.branches ≠ some 0) :
    closeBlock sv fn st closed = st := by
  unfold closeBlock
  rw [hst]
  simp [hci, hb]

/-- closeBlock on a returning non-if block under an if parent: one arm
is accounted for, the parent branch count drops by one. -/
theorem close_arm_into_if (sv : BsLintRules) (fn : FunctionExpression)
    (st : TrackState) (closed p : StatementInfo) (rest : List StatementInfo) (b : Int)
    (hst : st.stack = p :: rest) (hci : isIfStatement closed.stat = false)
    (hcr : closed.returns = true) (hpi : isIfStatement p.stat = true)
    (hb : p.branches = some b) :
    closeBlock sv fn st closed =
      { st with stack := { p with branches := some (b - 1) } :: rest } := by
  unfold closeBlock
  rw [hst]
  simp [hci, hcr, hpi, hb]

/-- closeBlock on a non-returning non-if block changes nothing. -/
theorem close_silent (sv : BsLintRules) (fn : FunctionExpression)
    (st : TrackState) (closed p : StatementInfo) (rest : List StatementInfo)
    (hst : st.stack = p :: rest) (hci : isIfStatement closed.stat = false)
    (hcr : closed.returns = false) :
    closeBlock sv fn st closed = st := by
  unfold closeBlock
  rw [hst]
  simp [hci, hcr]

/-- closeBlock on a returning non-if block under a non-if parent
changes nothing. -/
theorem close_no_if_parent (sv : BsLintRules) (fn : FunctionExpression)
    (st : TrackState) (closed p : StatementInfo) (rest : List StatementInfo)
    (hst : st.stack = p :: rest) (hci : isIfStatement closed.stat = false)
    (hpi : isIfStatement p.stat = false) :
    closeBlock sv fn st closed = st := by
  unfold closeBlock
  rw [hst]
  by_cases hcr : closed.returns <;> simp [hci, hcr, hpi]

/-! ### Claim theorems -/

/-- C2: openBlock sets the fresh frame branch count to
1 + elseIfs.length + 1 for an if statement (the implicit final arm is
charged whether or not an explicit else arm is present — the else field
of the statement is ignored by the match), to 2 for any other
branch-introducing statement, and to 1 for a non-branch-introducing
statement; openBlock and branchesCount are pure total functions that
change nothing else in the frame. -/
theorem claim_C2_openBlock_branch_count (b : StatementInfo) :
    openBlock b =
      { b with branches := some (match b.stat with
          | .ifStmt _ el _ _ => 1 + (el.length : Int) + 1
          | .tryBranched _ _ => 2
          | _ => 1) } := by
  obtain ⟨s, br, rt⟩ := b
  cases s <;> simp [openBlock, isBranchedBlock, branchesCount]

/-- C5: when the current top-of-stack frame has already returned,
visitStatement emits exactly one UnreachableCode diagnostic at the
visited statement's range, with the configured unreachableCode severity
and the unnecessary tag, for every non-comment statement — and emits
nothing (and changes nothing) for a comment. -/
theorem claim_C5_unreachable_code (sv : BsLintRules) (state : LintState)
    (st : TrackState) (curr : StatementInfo) (p : StatementInfo)
    (hpf : (state.parent.bind fun i => st.stack[i]?) = some p)
    (hret : p.returns = true) :
    (isCommentStatement curr.stat = false →
      visitStatement sv state st curr =
        { st with diagnostics := st.diagnostics ++
            [{ severity := sv.unreachableCode
               code := ReturnLintError.UnreachableCode
               message := "Unreachable code"
               range := curr.stat.range
               tags := [DiagnosticTag.Unnecessary] }] })
    ∧ (isCommentStatement curr.stat = true →
        visitStatement sv state st curr = st) := by
  constructor <;> intro hc <;>
    · simp only [visitStatement]
      rw [hpf]
      simp [hret, hc]

/-- Witness for C5 at a concrete state: a non-comment statement with
the top frame already returning produces the single unreachable-code
diagnostic. -/
theorem claim_C5_unreachable_code_witness :
    visitStatement ⟨5, 6⟩ ⟨some 0, none, none⟩
        ⟨[⟨.other none, some 1, true⟩], [], []⟩ ⟨.other (some ⟨1, 2⟩), none, false⟩ =
      { stack := [⟨.other none, some 1, true⟩]
        returns := []
        diagnostics := [⟨5, 2011, "Unreachable code", some ⟨1, 2⟩, [.Unnecessary]⟩] } :=
  (claim_C5_unreachable_code ⟨5, 6⟩ ⟨some 0, none, none⟩
    ⟨[⟨.other none, some 1, true⟩], [], []⟩ ⟨.other (some ⟨1, 2⟩), none, false⟩
    ⟨.other none, some 1, true⟩ rfl rfl).1 rfl

/-- C4: closeBlock reconciles the closed frame with the parent: with no
parent the finalizer runs (and it runs in no other case — the
diagnostics are untouched whenever a parent exists); a closed if with
zero branches remaining marks the parent as returning; a closed if with
branches remaining changes nothing; a returning non-if block under an
if parent decrements the parent branch count by one; in every other
case the state is unchanged. -/
theorem claim_C4_closeBlock_reconcile (sv : BsLintRules) (fn : FunctionExpression)
    (st : TrackState) (closed : StatementInfo) :
    (st.stack = [] →
      closeBlock sv fn st closed =
        { st with diagnostics := st.diagnostics ++ finalize sv fn st.returns closed })
    ∧ ∀ p rest, st.stack = p :: rest →
        ((closeBlock sv fn st closed).diagnostics = st.diagnostics
         ∧ (isIfStatement closed.stat = true → closed.branches = some 0 →
             closeBlock sv fn st closed = { st with stack := { p with returns := true } :: rest })
         ∧ (isIfStatement closed.stat = true → closed.branches ≠ some 0 →
             closeBlock sv fn st closed = st)
         ∧ (isIfStatement closed.stat = false → closed.returns = true →
             isIfStatement p.stat = true → ∀ n : Int, p.branches = some n →
             closeBlock sv fn st closed =
               { st with stack := { p with branches := some (n - 1) } :: rest })
         ∧ (isIfStatement closed.stat = false →
             (closed.returns = false ∨ isIfStatement p.stat = false) →
             closeBlock sv fn st closed = st)) := by
  constructor
  · intro hst
    exact close_top sv fn st closed hst
  · intro p rest hst
    refine ⟨?_, ?_, ?_, ?_, ?_⟩
    · unfold closeBlock
      rw [hst]
      by_cases hci : isIfStatement closed.stat <;>
        by_cases hb : closed.branches = some 0 <;>
        by_cases hcr : closed.returns <;>
        by_cases hpi : isIfStatement p.stat <;>
        simp [hci, hb, hcr, hpi]
    · intro hci hb
      exact close_if_exhausted sv fn st closed p rest hst hci hb
    · intro hci hb
      exact close_if_remaining sv fn st closed p rest hst hci hb
    · intro hci hcr hpi n hb
      have := close_arm_into_if sv fn st closed p rest n hst hci hcr hpi hb
      simpa using this
    · intro hci hd
      rcases hd with hcr | hpi
      · exact close_silent sv fn st closed p rest hst hci hcr
      · exact close_no_if_parent sv fn st closed p rest hst hci hpi

/-- Witness for C4 at a concrete state: closing a returning arm block
under an if frame with 2 branches remaining leaves 1 branch. -/
theorem claim_C4_closeBlock_reconcile_witness :
    closeBlock ⟨1, 2⟩
        ⟨none, ⟨.Other, ⟨0, 1⟩⟩, none, ⟨.Other, ⟨1, 2⟩⟩⟩
        ⟨[⟨.ifStmt (.other none) .nil .noneS none, some 2, false⟩], [], []⟩
        ⟨.block .nil none, some 1, true⟩ =
      { stack := [⟨.ifStmt (.other none) .nil .noneS none, some 1, false⟩]
        returns := []
        diagnostics := [] } := by
  have h := ((claim_C4_closeBlock_reconcile ⟨1, 2⟩
      ⟨none, ⟨.Other, ⟨0, 1⟩⟩, none, ⟨.Other, ⟨1, 2⟩⟩⟩
      ⟨[⟨.ifStmt (.other none) .nil .noneS none, some 2, false⟩], [], []⟩
      ⟨.block .nil none, some 1, true⟩).2
      ⟨.ifStmt (.other none) .nil .noneS none, some 2, false⟩ [] rfl).2.2.2.1
      rfl rfl rfl 2 rfl
  simpa using h

/-- C3: visitStatement on a return statement whose enclosing block has
not returned appends exactly one ReturnRecord whose hasValue is true
iff the return has an operand that is not a comment placeholder; it
emits no diagnostic; the governing block — the arm frame (branch) when
inside a conditional arm (ifs set), otherwise the nearest enclosing
frame (parent) — is marked returning exactly when the parent frame has
exactly one branch; every other frame, in particular the conditional
container frame itself, keeps its returns flag. -/
theorem claim_C3_visit_return (sv : BsLintRules) (state : LintState)
    (st : TrackState) (curr : StatementInfo) (p : StatementInfo)
    (v : OptStmt) (r : Option Range)
    (hpf : (state.parent.bind fun i => st.stack[i]?) = some p)
    (hnr : p.returns = false)
    (hcur : curr.stat = .ret v r) :
    ((∀ e, v = .someS e →
        (visitStatement sv state st curr).returns =
          st.returns ++ [⟨curr.stat, !isCommentStatement e⟩])
     ∧ (v = .noneS →
        (visitStatement sv state st curr).returns = st.returns ++ [⟨curr.stat, false⟩])
     ∧ (visitStatement sv state st curr).diagnostics = st.diagnostics)
    ∧ (∀ gi fr, (if state.ifs.isSome then state.branch else state.parent) = some gi →
         st.stack[gi]? = some fr → p.branches = some 1 →
         (visitStatement sv state st curr).stack =
           st.stack.set gi { fr with returns := true })
    ∧ (p.branches ≠ some 1 → (visitStatement sv state st curr).stack = st.stack)
    ∧ (∀ j, (∀ gi, (if state.ifs.isSome then state.branch else state.parent) = some gi → j ≠ gi) →
         (visitStatement sv state st curr).stack[j]? = st.stack[j]?)
    ∧ (∀ i, state.ifs = some i → state.branch ≠ some i →
         (visitStatement sv state st curr).stack[i]? = st.stack[i]?) := by
  obtain ⟨stk, rets, dgs⟩ := st
  simp only at hpf ⊢
  have hret : isReturnStatement curr.stat = true := by simp [hcur, isReturnStatement]
  have hval : ∀ e, v = .someS e → retHasValue curr.stat = !isCommentStatement e := by
    intro e he
    simp [hcur, he, retHasValue, Stmt.value]
  have hvalN : v = .noneS → retHasValue curr.stat = false := by
    intro he
    simp [hcur, he, retHasValue, Stmt.value]
  have hbody : visitStatement sv state ⟨stk, rets, dgs⟩ curr =
      (match (if state.ifs.isSome then state.branch else state.parent) with
      | some ri =>
          match stk[ri]? with
          | some rb =>
              if p.branches = some 1 then
                (⟨stk.set ri { rb with returns := true },
                  rets ++ [⟨curr.stat, retHasValue curr.stat⟩], dgs⟩ : TrackState)
              else ⟨stk, rets ++ [⟨curr.stat, retHasValue curr.stat⟩], dgs⟩
          | none => ⟨stk, rets ++ [⟨curr.stat, retHasValue curr.stat⟩], dgs⟩
      | none => ⟨stk, rets ++ [⟨curr.stat, retHasValue curr.stat⟩], dgs⟩) := by
    simp only [visitStatement]
    rw [hpf]
    simp [hnr, hret]
  rw [hbody]
  cases hrb : (if state.ifs.isSome then state.branch else state.parent) with
  | none =>
      dsimp only
      exact ⟨⟨fun e he => by simp [hval e he], fun he => by simp [hvalN he], rfl⟩,
        fun gi fr hgi => by simp_all, fun _ => rfl, fun j _ => rfl, fun i hi hbne => rfl⟩
  | some ri =>
      dsimp only
      cases hfr : stk[ri]? with
      | none =>
          dsimp only
          refine ⟨⟨fun e he => by simp [hval e he], fun he => by simp [hvalN he], rfl⟩,
            ?_, fun _ => rfl, fun j _ => rfl, fun i hi hbne => rfl⟩
          intro gi fr hgi hfr2
          injection hgi with hgi2
          subst hgi2
          rw [hfr] at hfr2
          simp at hfr2
      | some rb =>
          dsimp only
          by_cases hb1 : p.branches = some 1
          · rw [if_pos hb1]
            refine ⟨⟨fun e he => by simp [hval e he], fun he => by simp [hvalN he], rfl⟩,
              ?_, ?_, ?_, ?_⟩
            · intro gi fr hgi hfr2 _
              injection hgi with hgi2
              subst hgi2
              rw [hfr] at hfr2
              injection hfr2 with hfr3
              subst hfr3
              rfl
            · intro hb
              exact absurd hb1 hb
            · intro j hj
              have hne : j ≠ ri := hj ri rfl
              simp [List.getElem?_set_ne (Ne.symm hne)]
            · intro i hi hbne
              have hsome : state.ifs.isSome = true := by simp [hi]
              rw [if_pos hsome] at hrb
              have hne : i ≠ ri := by
                intro he
                exact hbne (he ▸ hrb)
              simp [List.getElem?_set_ne (Ne.symm hne)]
          · rw [if_neg hb1]
            exact ⟨⟨fun e he => by simp [hval e he], fun he => by simp [hvalN he], rfl⟩,
              fun gi fr hgi hfr2 hb => absurd hb hb1, fun _ => rfl, fun j _ => rfl,
              fun i hi hbne => rfl⟩

/-- Witness for C3 inside a conditional arm: the arm frame (index 0) is
marked returning, the if container frame (index 1) is untouched, the
value-carrying return is recorded. -/
theorem claim_C3_visit_return_witness :
    (visitStatement ⟨1, 2⟩ ⟨some 0, some 1, some 0⟩
        ⟨[⟨.block .nil none, some 1, false⟩, ⟨.ifStmt (.other none) .nil .noneS none, some 2, false⟩],
         [], []⟩
        ⟨.ret (.someS (.other none)) (some ⟨4, 5⟩), none, false⟩).stack =
      [⟨.block .nil none, some 1, true⟩, ⟨.ifStmt (.other none) .nil .noneS none, some 2, false⟩] := by
  have h := ((claim_C3_visit_return ⟨1, 2⟩ ⟨some 0, some 1, some 0⟩
      ⟨[⟨.block .nil none, some 1, false⟩, ⟨.ifStmt (.other none) .nil .noneS none, some 2, false⟩],
       [], []⟩
      ⟨.ret (.someS (.other none)) (some ⟨4, 5⟩), none, false⟩
      ⟨.block .nil none, some 1, false⟩ (.someS (.other none)) (some ⟨4, 5⟩)
      rfl rfl rfl).2.1) 0 ⟨.block .nil none, some 1, false⟩ rfl rfl rfl
  simpa using h

/-- C10: a return statement visited while the top frame has already
returned (an unreachable return) is not captured and flips no frame
flag, hence any later finalizer outcome is exactly what it would have
been without that return. -/
theorem claim_C10_unreachable_return_ignored (sv : BsLintRules)
    (fn : FunctionExpression) (state : LintState) (st : TrackState)
    (curr : StatementInfo) (p : StatementInfo) (v : OptStmt) (r : Option Range)
    (last : StatementInfo)
    (hpf : (state.parent.bind fun i => st.stack[i]?) = some p)
    (hret : p.returns = true) (hcur : curr.stat = .ret v r) :
    (visitStatement sv state st curr).returns = st.returns
    ∧ (visitStatement sv state st curr).stack = st.stack
    ∧ finalize sv fn (visitStatement sv state st curr).returns last =
        finalize sv fn st.returns last := by
  have hnc : isCommentStatement curr.stat = false := by
    simp [hcur, isCommentStatement]
  have hv : visitStatement sv state st curr =
      { st with diagnostics := st.diagnostics ++
          [{ severity := sv.unreachableCode
             code := ReturnLintError.UnreachableCode
             message := "Unreachable code"
             range := curr.stat.range
             tags := [DiagnosticTag.Unnecessary] }] } := by
    simp only [visitStatement]
    rw [hpf]
    simp [hret, hnc]
  rw [hv]
  exact ⟨rfl, rfl, rfl⟩

/-- Witness for C10: an unreachable valueless return is dropped, so the
finalizer output matches the one of the state without it. -/
theorem claim_C10_unreachable_return_ignored_witness :
    (visitStatement ⟨1, 2⟩ ⟨some 0, none, none⟩
        ⟨[⟨.block .nil none, some 1, true⟩], [⟨.ret (.someS (.other none)) none, true⟩], []⟩
        ⟨.ret .noneS (some ⟨7, 8⟩), none, false⟩).returns =
      [⟨.ret (.someS (.other none)) none, true⟩] :=
  (claim_C10_unreachable_return_ignored ⟨1, 2⟩
    ⟨none, ⟨.Other, ⟨0, 1⟩⟩, none, ⟨.Other, ⟨1, 2⟩⟩⟩ ⟨some 0, none, none⟩
    ⟨[⟨.block .nil none, some 1, true⟩], [⟨.ret (.someS (.other none)) none, true⟩], []⟩
    ⟨.ret .noneS (some ⟨7, 8⟩), none, false⟩
    ⟨.block .nil none, some 1, true⟩ .noneS (some ⟨7, 8⟩)
    ⟨.block .nil none, some 1, true⟩ rfl rfl rfl).1

/-- A non-empty filter is the same as a successful any. -/
theorem filter_length_pos_any (l : List ReturnInfo) (f : ReturnInfo → Bool) :
    decide (0 < (l.filter f).length) = l.any f := by
  induction l with
  | nil => simp
  | cons a t ih => by_cases hf : f a <;> simp [List.filter_cons, hf, ih]

/-- Zero length is emptiness. -/
theorem length_zero_isEmpty (l : List ReturnInfo) : decide (l.length = 0) = l.isEmpty := by
  cases l <;> simp

/-- Positive length is non-emptiness. -/
theorem length_pos_not_isEmpty (l : List ReturnInfo) : decide (0 < l.length) = !l.isEmpty := by
  cases l <;> simp

/-- Filtering a mapped list on a code none of its members carries gives
nothing. -/
theorem filter_code_map_none (c : Nat) (g : ReturnInfo → Diagnostic)
    (l : List ReturnInfo) (hg : ∀ r, (g r).code ≠ c) :
    (l.map g).filter (fun d => d.code == c) = [] := by
  induction l with
  | nil => rfl
  | cons a t ih =>
      have : ((g a).code == c) = false := by
        simp [hg a]
      simp [List.filter_cons, this, ih]

/-- Filtering a mapped list on a code all of its members carry keeps
everything. -/
theorem filter_code_map_all (c : Nat) (g : ReturnInfo → Diagnostic)
    (l : List ReturnInfo) (hg : ∀ r, (g r).code = c) :
    (l.map g).filter (fun d => d.code == c) = l.map g := by
  induction l with
  | nil => rfl
  | cons a t ih =>
      have : ((g a).code == c) = true := by
        simp [hg a]
      simp [List.filter_cons, this, ih]

/-- C1: for a non-void function, finalize emits the UnsafeReturnValue
diagnostic — exactly one, at the signature range — if and only if
(requiresValue or some captured return carries a value) and (the
outermost frame is not marked returning or no return was captured),
where requiresValue is: a return type annotation is present, or some
captured return carries a value, or the function-kind token is the
function keyword and at least one return was captured. -/
theorem claim_C1_unsafe_return (sv : BsLintRules) (fn : FunctionExpression)
    (rets : List ReturnInfo) (last : StatementInfo)
    (hnv : (fn.returnTypeToken.map Token.kind) ≠ some TokenKind.Void) :
    (finalize sv fn rets last).filter
        (fun d => d.code == ReturnLintError.UnsafeReturnValue) =
      if ((fn.returnTypeToken.isSome || rets.any (fun r => r.hasValue)
            || (decide ((fn.functionType.map Token.kind) = some TokenKind.Function)
                && !rets.isEmpty))
          || rets.any (fun r => r.hasValue))
         && (!last.returns || rets.isEmpty) then
        [{ severity := sv.consistentReturn
           code := ReturnLintError.UnsafeReturnValue
           message := "Not all code paths return a value"
           range := some (funRange fn)
           tags := [] }]
      else [] := by
  have hP := filter_length_pos_any rets (fun r => r.hasValue)
  have hZ := length_zero_isEmpty rets
  have hQ := length_pos_not_isEmpty rets
  simp only [finalize]
  rw [if_neg hnv, List.filter_append]
  rw [hP, hZ, hQ]
  have hmiss : ∀ c : Bool, ((if c = true then
      (rets.filter (fun r => !r.hasValue)).map (fun r =>
        ({ severity := sv.consistentReturn
           code := ReturnLintError.ReturnValueMissing
           message := "This function should consistently return a value"
           range := some ((r.stat.range).getD (funRange fn))
           tags := [] } : Diagnostic)) else []).filter
      (fun d => d.code == ReturnLintError.UnsafeReturnValue)) = [] := by
    intro c
    cases c
    · rfl
    · simp only [if_pos rfl]
      apply filter_code_map_none
      intro r
      simp [ReturnLintError.ReturnValueMissing, ReturnLintError.UnsafeReturnValue]
  rw [hmiss, List.append_nil]
  split
  · simp [ReturnLintError.UnsafeReturnValue]
  · rfl

/-- Witness for C1: a function-keyword function with no return type
annotation and a single valueless return whose body does not always
return gets exactly one UnsafeReturnValue at the signature range. -/
theorem claim_C1_unsafe_return_witness :
    (finalize ⟨1, 2⟩
        ⟨some ⟨.Function, ⟨0, 8⟩⟩, ⟨.Other, ⟨8, 9⟩⟩, none, ⟨.Other, ⟨9, 10⟩⟩⟩
        [⟨.ret .noneS none, false⟩] ⟨.block .nil none, some 1, false⟩).filter
        (fun d => d.code == ReturnLintError.UnsafeReturnValue) =
      [{ severity := 2
         code := ReturnLintError.UnsafeReturnValue
         message := "Not all code paths return a value"
         range := some ⟨0, 10⟩
         tags := [] }] := by
  have h := claim_C1_unsafe_return ⟨1, 2⟩
      ⟨some ⟨.Function, ⟨0, 8⟩⟩, ⟨.Other, ⟨8, 9⟩⟩, none, ⟨.Other, ⟨9, 10⟩⟩⟩
      [⟨.ret .noneS none, false⟩] ⟨.block .nil none, some 1, false⟩ (by simp)
  simpa [funRange] using h

/-- C6: for a function declared as void, finalize emits exactly one
ReturnValueUnexpected per captured value-carrying return, at that
return's range with the signature range as fallback, and nothing
else — no UnsafeReturnValue and no ReturnValueMissing, whatever the
return history and branch coverage. -/
theorem claim_C6_void_function (sv : BsLintRules) (fn : FunctionExpression)
    (rets : List ReturnInfo) (last : StatementInfo) (tk : Token)
    (htk : fn.returnTypeToken = some tk) (hk : tk.kind = TokenKind.Void) :
    finalize sv fn rets last =
      (rets.filter fun r => r.hasValue).map fun r =>
        { severity := sv.consistentReturn
          code := ReturnLintError.ReturnValueUnexpected
          message := "Function as void should not return a value"
          range := some ((r.stat.range).getD (funRange fn))
          tags := [] } := by
  rcases hfe : rets.filter (fun r => r.hasValue) with _ | ⟨a, t⟩
  · simp [finalize, htk, hk, hfe]
  · simp [finalize, htk, hk, hfe]

/-- Witness for C6: a void function with one value-carrying and one
valueless return gets exactly the one ReturnValueUnexpected, at the
value-carrying return's range. -/
theorem claim_C6_void_function_witness :
    finalize ⟨1, 2⟩
        ⟨some ⟨.Sub, ⟨0, 3⟩⟩, ⟨.Other, ⟨3, 4⟩⟩, some ⟨.Void, ⟨5, 9⟩⟩, ⟨.Other, ⟨4, 5⟩⟩⟩
        [⟨.ret (.someS (.other none)) (some ⟨11, 19⟩), true⟩, ⟨.ret .noneS (some ⟨21, 27⟩), false⟩]
        ⟨.block .nil none, some 1, false⟩ =
      [{ severity := 2
         code := ReturnLintError.ReturnValueUnexpected
         message := "Function as void should not return a value"
         range := some ⟨11, 19⟩
         tags := [] }] := by
  have h := claim_C6_void_function ⟨1, 2⟩
      ⟨some ⟨.Sub, ⟨0, 3⟩⟩, ⟨.Other, ⟨3, 4⟩⟩, some ⟨.Void, ⟨5, 9⟩⟩, ⟨.Other, ⟨4, 5⟩⟩⟩
      [⟨.ret (.someS (.other none)) (some ⟨11, 19⟩), true⟩, ⟨.ret .noneS (some ⟨21, 27⟩), false⟩]
      ⟨.block .nil none, some 1, false⟩ ⟨.Void, ⟨5, 9⟩⟩ rfl rfl
  simpa [List.filter, retHasValue] using h

/-- C7: for a non-void function, finalize emits ReturnValueMissing
diagnostics exactly when requiresValue holds and the number of
value-carrying captured returns differs from the total number of
captured returns, in which case it emits exactly one per captured
return lacking a value, at that return's range with the signature range
as fallback. -/
theorem claim_C7_missing_value (sv : BsLintRules) (fn : FunctionExpression)
    (rets : List ReturnInfo) (last : StatementInfo)
    (hnv : (fn.returnTypeToken.map Token.kind) ≠ some TokenKind.Void) :
    (finalize sv fn rets last).filter
        (fun d => d.code == ReturnLintError.ReturnValueMissing) =
      if (fn.returnTypeToken.isSome || rets.any (fun r => r.hasValue)
            || (decide ((fn.functionType.map Token.kind) = some TokenKind.Function)
                && !rets.isEmpty))
         && decide ((rets.filter fun r => r.hasValue).length ≠ rets.length) then
        (rets.filter fun r => !r.hasValue).map fun r =>
          { severity := sv.consistentReturn
            code := ReturnLintError.ReturnValueMissing
            message := "This function should consistently return a value"
            range := some ((r.stat.range).getD (funRange fn))
            tags := [] }
      else [] := by
  have hP := filter_length_pos_any rets (fun r => r.hasValue)
  have hQ := length_pos_not_isEmpty rets
  simp only [finalize]
  rw [if_neg hnv, List.filter_append]
  rw [hP, hQ]
  have hupart : ∀ c : Bool, ((if c = true then
      [({ severity := sv.consistentReturn
          code := ReturnLintError.UnsafeReturnValue
          message := "Not all code paths return a value"
          range := some (funRange fn)
          tags := [] } : Diagnostic)] else []).filter
      (fun d => d.code == ReturnLintError.ReturnValueMissing)) = [] := by
    intro c
    cases c
    · rfl
    · simp [ReturnLintError.ReturnValueMissing, ReturnLintError.UnsafeReturnValue]
  rw [hupart, List.nil_append]
  split
  · apply filter_code_map_all
    intro r
    rfl
  · rfl

/-- Witness for C7: a typed function with one value-carrying and one
valueless return gets exactly one ReturnValueMissing at the valueless
return's range. -/
theorem claim_C7_missing_value_witness :
    (finalize ⟨1, 2⟩
        ⟨some ⟨.Function, ⟨0, 8⟩⟩, ⟨.Other, ⟨8, 9⟩⟩, some ⟨.Other, ⟨12, 19⟩⟩, ⟨.Other, ⟨9, 10⟩⟩⟩
        [⟨.ret (.someS (.other none)) (some ⟨30, 38⟩), true⟩, ⟨.ret .noneS (some ⟨40, 46⟩), false⟩]
        ⟨.block .nil none, some 1, true⟩).filter
        (fun d => d.code == ReturnLintError.ReturnValueMissing) =
      [{ severity := 2
         code := ReturnLintError.ReturnValueMissing
         message := "This function should consistently return a value"
         range := some ⟨40, 46⟩
         tags := [] }] := by
  have h := claim_C7_missing_value ⟨1, 2⟩
      ⟨some ⟨.Function, ⟨0, 8⟩⟩, ⟨.Other, ⟨8, 9⟩⟩, some ⟨.Other, ⟨12, 19⟩⟩, ⟨.Other, ⟨9, 10⟩⟩⟩
      [⟨.ret (.someS (.other none)) (some ⟨30, 38⟩), true⟩, ⟨.ret .noneS (some ⟨40, 46⟩), false⟩]
      ⟨.block .nil none, some 1, true⟩ (by simp)
  simpa [List.filter, funRange, Stmt.range] using h

/-- All the diagnostic lists visitStatement can produce: either the
diagnostics are untouched, or exactly one unreachable-code diagnostic
carrying the visited statement's own (possibly absent) range was
appended. -/
theorem visit_diagnostics_cases (sv : BsLintRules) (state : LintState)
    (st : TrackState) (curr : StatementInfo) :
    (visitStatement sv state st curr).diagnostics = st.diagnostics
    ∨ (visitStatement sv state st curr).diagnostics =
        st.diagnostics ++
          [{ severity := sv.unreachableCode
             code := ReturnLintError.UnreachableCode
             message := "Unreachable code"
             range := curr.stat.range
             tags := [DiagnosticTag.Unnecessary] }] := by
  unfold visitStatement
  dsimp only
  split
  · split
    · exact .inl rfl
    · exact .inr rfl
  · split
    · split
      · split
        · split
          · exact .inl rfl
          · exact .inl rfl
        · exact .inl rfl
      · exact .inl rfl
    · exact .inl rfl

/-- C9 counterexample: the claim asserts every emitted diagnostic has a
source range, with the signature range as fallback when the statement's
range is missing; but the unreachable-code diagnostic copies the
statement's range with no fallback, so a range-less statement visited
after a return produces a diagnostic with no range at all. -/
theorem claim_C9_counterexample :
    (visitStatement ⟨3, 4⟩ ⟨some 0, none, none⟩
        ⟨[⟨.other none, some 1, true⟩], [], []⟩ ⟨.other none, none, false⟩).diagnostics =
      [{ severity := 3
         code := ReturnLintError.UnreachableCode
         message := "Unreachable code"
         range := none
         tags := [.Unnecessary] }] := rfl

/-- C9 (amended): every operation is a total function by construction
(the shallow embedding has no partial operation and no failure mode);
a statement shape that is not branch-introducing falls back to the
straight-line classification branches = 1; every finalizer diagnostic
carries a range (the statement's own, with the signature range as
fallback); the unreachable-code diagnostic instead copies the visited
statement's range unchanged — absent when the statement has none — with
no signature fallback. -/
theorem claim_C9_total_with_fallbacks :
    (∀ b : StatementInfo, isBranchedBlock b = false →
      openBlock b = { b with branches := some 1 })
    ∧ (∀ (sv : BsLintRules) (fn : FunctionExpression) (rets : List ReturnInfo)
        (last : StatementInfo), ∀ d ∈ finalize sv fn rets last, d.range ≠ none)
    ∧ (∀ (sv : BsLintRules) (state : LintState) (st : TrackState)
        (curr : StatementInfo), ∀ d ∈ (visitStatement sv state st curr).diagnostics,
          d ∈ st.diagnostics ∨ d.range = curr.stat.range) := by
  refine ⟨?_, ?_, ?_⟩
  · intro b hb
    simp [openBlock, hb]
  · intro sv fn rets last d hd
    simp only [finalize] at hd
    split at hd
    · split at hd
      · obtain ⟨r, _, rfl⟩ := List.mem_map.mp hd
        simp
      · simp at hd
    · rcases List.mem_append.mp hd with h1 | h2
      · split at h1
        · rw [List.mem_singleton] at h1
          subst h1
          simp
        · simp at h1
      · split at h2
        · obtain ⟨r, _, rfl⟩ := List.mem_map.mp h2
          simp
        · simp at h2
  · intro sv state st curr d hd
    rcases visit_diagnostics_cases sv state st curr with h | h
    · rw [h] at hd
      exact .inl hd
    · rw [h] at hd
      rcases List.mem_append.mp hd with h1 | h1
      · exact .inl h1
      · rw [List.mem_singleton] at h1
        subst h1
        exact .inr rfl

/-- Witness for C9 (amended): the straight-line fallback at a concrete
non-branch statement shape. -/
theorem claim_C9_total_with_fallbacks_witness :
    openBlock ⟨.other none, none, false⟩ = ⟨.other none, some 1, false⟩ :=
  claim_C9_total_with_fallbacks.1 ⟨.other none, none, false⟩ rfl

/-! ### The zero-diagnostics run -/

/-- There are never more closed arms than arms. -/
theorem closedCountArms_le : ∀ l : StmtList, closedCountArms l ≤ l.length
  | .nil => by simp [closedCountArms, StmtList.length]
  | .cons a t => by
      have ih := closedCountArms_le t
      cases ha : closedArm a <;>
        simp [closedCountArms, StmtList.length, ha] <;> omega

/-- When all arms are closed the closed count is the length. -/
theorem closedArms_count : ∀ l : StmtList, closedArms l = true →
    closedCountArms l = l.length
  | .nil, _ => rfl
  | .cons a t, h => by
      rw [closedArms] at h
      obtain ⟨h1, h2⟩ := Bool.and_eq_true_iff.mp h
      have ih := closedArms_count t h2
      simp [closedCountArms, StmtList.length, h1, ih]

/-- When not all arms are closed the closed count is short of the
length. -/
theorem not_closedArms_count : ∀ l : StmtList, closedArms l = false →
    closedCountArms l < l.length
  | .cons a t, h => by
      rw [closedArms] at h
      rcases Bool.and_eq_false_iff.mp h with h1 | h2
      · have ih := closedCountArms_le t
        simp [closedCountArms, StmtList.length, h1]
        omega
      · have ih := not_closedArms_count t h2
        cases ha : closedArm a <;>
          simp [closedCountArms, StmtList.length, ha] <;> omega

/-- commentsOnly statements are comments. -/
theorem commentsOnly_cons : ∀ (s : Stmt) (l : StmtList),
    commentsOnly (.cons s l) = true →
    isCommentStatement s = true ∧ commentsOnly l = true := by
  intro s l h
  cases s <;> simp [commentsOnly, isCommentStatement] at h ⊢ <;> exact h

/-- One driver step on a return statement: visit only. -/
theorem runStmt_ret_eq (sv : BsLintRules) (fn : FunctionExpression)
    (st : TrackState) (v : OptStmt) (r : Option Range) :
    runStmt sv fn st (.ret v r) =
      visitStatement sv (lintView st.stack) st ⟨.ret v r, none, false⟩ := rfl

/-- One driver step on a comment statement: visit only. -/
theorem runStmt_comment_eq (sv : BsLintRules) (fn : FunctionExpression)
    (st : TrackState) (r : Option Range) :
    runStmt sv fn st (.comment r) =
      visitStatement sv (lintView st.stack) st ⟨.comment r, none, false⟩ := rfl

/-- One driver step on a leaf statement: visit only. -/
theorem runStmt_other_eq (sv : BsLintRules) (fn : FunctionExpression)
    (st : TrackState) (r : Option Range) :
    runStmt sv fn st (.other r) =
      visitStatement sv (lintView st.stack) st ⟨.other r, none, false⟩ := rfl

/-- One driver step on a block statement: visit, open, body, close. -/
theorem runStmt_block_eq (sv : BsLintRules) (fn : FunctionExpression)
    (st : TrackState) (body : StmtList) (r : Option Range) :
    runStmt sv fn st (.block body r) =
      popClose sv fn (runList sv fn
        { visitStatement sv (lintView st.stack) st ⟨.block body r, none, false⟩ with
          stack := openBlock ⟨.block body r, none, false⟩ ::
            (visitStatement sv (lintView st.stack) st ⟨.block body r, none, false⟩).stack }
        body) := rfl

/-- One driver step on an if statement: visit, open, then arm, else-if
arms, optional else arm, close. -/
theorem runStmt_if_eq (sv : BsLintRules) (fn : FunctionExpression)
    (st : TrackState) (t : Stmt) (el : StmtList) (e : OptStmt) (r : Option Range) :
    runStmt sv fn st (.ifStmt t el e r) =
      popClose sv fn (runOpt sv fn (runList sv fn (runStmt sv fn
        { visitStatement sv (lintView st.stack) st ⟨.ifStmt t el e r, none, false⟩ with
          stack := openBlock ⟨.ifStmt t el e r, none, false⟩ ::
            (visitStatement sv (lintView st.stack) st ⟨.ifStmt t el e r, none, false⟩).stack }
        t) el) e) := rfl

/-- Running an empty statement list does nothing. -/
theorem runList_nil_eq (sv : BsLintRules) (fn : FunctionExpression) (st : TrackState) :
    runList sv fn st .nil = st := rfl

/-- Running a statement list runs the head then the tail. -/
theorem runList_cons_eq (sv : BsLintRules) (fn : FunctionExpression)
    (st : TrackState) (s : Stmt) (l : StmtList) :
    runList sv fn st (.cons s l) = runList sv fn (runStmt sv fn st s) l := rfl

/-- Running an absent optional statement does nothing. -/
theorem runOpt_none_eq (sv : BsLintRules) (fn : FunctionExpression) (st : TrackState) :
    runOpt sv fn st .noneS = st := rfl

/-- Running a present optional statement runs it. -/
theorem runOpt_some_eq (sv : BsLintRules) (fn : FunctionExpression)
    (st : TrackState) (s : Stmt) :
    runOpt sv fn st (.someS s) = runStmt sv fn st s := rfl

/-- Popping a frame reconciles it with the remaining stack. -/
theorem popClose_cons (sv : BsLintRules) (fn : FunctionExpression)
    (x : StatementInfo) (xs : List StatementInfo) (rets : List ReturnInfo)
    (dgs : List Diagnostic) :
    popClose sv fn ⟨x :: xs, rets, dgs⟩ = closeBlock sv fn ⟨xs, rets, dgs⟩ x := rfl

/-- Opening a plain block yields a single straight-line branch. -/
theorem openBlock_block (body : StmtList) (r : Option Range) :
    openBlock ⟨.block body r, none, false⟩ = ⟨.block body r, some 1, false⟩ := by
  simp [openBlock, isBranchedBlock]

/-- Opening an if yields one branch per arm plus the implicit else. -/
theorem openBlock_if (t : Stmt) (el : StmtList) (e : OptStmt) (r : Option Range) :
    openBlock ⟨.ifStmt t el e r, none, false⟩ =
      ⟨.ifStmt t el e r, some (1 + (el.length : Int) + 1), false⟩ := by
  simp [openBlock, isBranchedBlock, branchesCount]

/-- Closing a returning non-if frame under an if frame decrements the
if frame's branch count (literal-state form). -/
theorem closeBlock_arm_dec (sv : BsLintRules) (fn : FunctionExpression)
    (cstat : Stmt) (cbr : Option Int) (istat : Stmt) (b : Int)
    (rest : List StatementInfo) (rets : List ReturnInfo) (dgs : List Diagnostic)
    (hci : isIfStatement cstat = false) (hif : isIfStatement istat = true) :
    closeBlock sv fn ⟨⟨istat, some b, false⟩ :: rest, rets, dgs⟩ ⟨cstat, cbr, true⟩ =
      ⟨⟨istat, some (b - 1), false⟩ :: rest, rets, dgs⟩ := by
  unfold closeBlock
  simp [hci, hif]

/-- Closing a non-returning non-if frame changes nothing
(literal-state form). -/
theorem closeBlock_arm_silent (sv : BsLintRules) (fn : FunctionExpression)
    (cstat : Stmt) (cbr : Option Int) (p : StatementInfo)
    (rest : List StatementInfo) (rets : List ReturnInfo) (dgs : List Diagnostic)
    (hci : isIfStatement cstat = false) :
    closeBlock sv fn ⟨p :: rest, rets, dgs⟩ ⟨cstat, cbr, false⟩ =
      ⟨p :: rest, rets, dgs⟩ := by
  unfold closeBlock
  simp [hci]

/-- Closing an exhausted if frame marks the parent as returning
(literal-state form). -/
theorem closeBlock_if_done (sv : BsLintRules) (fn : FunctionExpression)
    (cstat : Stmt) (X : Int) (cret : Bool) (pstat : Stmt) (pbr : Option Int)
    (pret : Bool) (rest : List StatementInfo) (rets : List ReturnInfo)
    (dgs : List Diagnostic) (hci : isIfStatement cstat = true) (hx : X = 0) :
    closeBlock sv fn ⟨⟨pstat, pbr, pret⟩ :: rest, rets, dgs⟩ ⟨cstat, some X, cret⟩ =
      ⟨⟨pstat, pbr, true⟩ :: rest, rets, dgs⟩ := by
  unfold closeBlock
  simp [hci, hx]

/-- Closing an if frame with arms remaining changes nothing
(literal-state form). -/
theorem closeBlock_if_notdone (sv : BsLintRules) (fn : FunctionExpression)
    (cstat : Stmt) (X : Int) (cret : Bool) (p : StatementInfo)
    (rest : List StatementInfo) (rets : List ReturnInfo) (dgs : List Diagnostic)
    (hci : isIfStatement cstat = true) (hx : X ≠ 0) :
    closeBlock sv fn ⟨p :: rest, rets, dgs⟩ ⟨cstat, some X, cret⟩ =
      ⟨p :: rest, rets, dgs⟩ := by
  unfold closeBlock
  simp [hci, hx]

/-- Closed arms are in particular clean arms. -/
theorem closedArms_cleanArms : ∀ l : StmtList, closedArms l = true → cleanArms l = true
  | .nil, _ => rfl
  | .cons a t, h => by
      simp only [closedArms, Bool.and_eq_true] at h
      simp [cleanArms, h.1, closedArms_cleanArms t h.2]

set_option maxHeartbeats 1000000 in
mutual

theorem runStmt_open (sv : BsLintRules) (fn : FunctionExpression) :
    ∀ (s : Stmt), openCleanStmt s = true →
    ∀ (hstat : Stmt) (rest : List StatementInfo) (rets : List ReturnInfo)
      (dgs : List Diagnostic), GoodRest rest →
    ∃ news, runStmt sv fn ⟨⟨hstat, some 1, false⟩ :: rest, rets, dgs⟩ s =
        ⟨⟨hstat, some 1, false⟩ :: rest, rets ++ news, dgs⟩
      ∧ ∀ x ∈ news, x.hasValue = true
  | .comment r, hs, hstat, rest, rets, dgs, hgr => by
      refine ⟨[], ?_, by simp⟩
      rw [runStmt_comment_eq, visit_comment sv
        (lintView ((⟨⟨hstat, some 1, false⟩ :: rest, rets, dgs⟩ : TrackState)).stack)
        ⟨⟨hstat, some 1, false⟩ :: rest, rets, dgs⟩ ⟨.comment r, none, false⟩ rfl]
      simp
  | .other r, hs, hstat, rest, rets, dgs, hgr => by
      refine ⟨[], ?_, by simp⟩
      rw [runStmt_other_eq, visit_head_not_return sv ⟨⟨hstat, some 1, false⟩ :: rest, rets, dgs⟩
        ⟨hstat, some 1, false⟩ rest ⟨.other r, none, false⟩ rfl rfl (by simp [isReturnStatement])]
      simp
  | .ret v r, hs, hstat, rest, rets, dgs, hgr => by
      exact absurd hs (by simp [openCleanStmt])
  | .block body r, hs, hstat, rest, rets, dgs, hgr => by
      exact absurd hs (by simp [openCleanStmt])
  | .tryBranched arms r, hs, hstat, rest, rets, dgs, hgr => by
      exact absurd hs (by simp [openCleanStmt])
  | .ifStmt t el .noneS r, hs, hstat, rest, rets, dgs, hgr => by
      have hs2 : (closedArm t || openArm t) = true ∧ cleanArms el = true := by
        have h0 := hs
        simp only [openCleanStmt, Bool.and_eq_true] at h0
        exact ⟨by simp [h0.1], h0.2⟩
      obtain ⟨hct, hcel⟩ := hs2
      have hcle := closedCountArms_le el
      by_cases hc : closedArm t = true
      · obtain ⟨n1, e1, v1, _⟩ := runArm_closed sv fn t hc (.ifStmt t el .noneS r)
          (⟨hstat, some 1, false⟩ :: rest) (1 + (el.length : Int) + 1) rets dgs
          (by simp [isIfStatement])
        obtain ⟨n2, e2, v2⟩ := runArms_clean sv fn el hcel (.ifStmt t el .noneS r)
          (⟨hstat, some 1, false⟩ :: rest) ((1 + (el.length : Int) + 1) - 1) (rets ++ n1) dgs
          (by simp [isIfStatement])
        refine ⟨n1 ++ n2, ?_, ?_⟩
        · rw [runStmt_if_eq, visit_head_not_return sv ⟨⟨hstat, some 1, false⟩ :: rest, rets, dgs⟩
            ⟨hstat, some 1, false⟩ rest ⟨.ifStmt t el .noneS r, none, false⟩ rfl rfl
            (by simp [isReturnStatement]), openBlock_if]
          dsimp only
          rw [e1, e2, runOpt_none_eq, popClose_cons,
            closeBlock_if_notdone sv fn (.ifStmt t el .noneS r)
              ((1 + (el.length : Int) + 1) - 1 - (closedCountArms el : Int)) false
              ⟨hstat, some 1, false⟩ rest (rets ++ n1 ++ n2) dgs
              (by simp [isIfStatement]) (by omega)]
          simp
        · intro x hx
          rcases List.mem_append.mp hx with hx | hx
          · exact v1 x hx
          · exact v2 x hx
      · have hot : openArm t = true := (Bool.or_eq_true_iff.mp hct).resolve_left hc
        obtain ⟨n1, e1, v1⟩ := runArm_open sv fn t hot (.ifStmt t el .noneS r)
          (some (1 + (el.length : Int) + 1)) (⟨hstat, some 1, false⟩ :: rest) rets dgs
          (by simp [isIfStatement])
        obtain ⟨n2, e2, v2⟩ := runArms_clean sv fn el hcel (.ifStmt t el .noneS r)
          (⟨hstat, some 1, false⟩ :: rest) (1 + (el.length : Int) + 1) (rets ++ n1) dgs
          (by simp [isIfStatement])
        refine ⟨n1 ++ n2, ?_, ?_⟩
        · rw [runStmt_if_eq, visit_head_not_return sv ⟨⟨hstat, some 1, false⟩ :: rest, rets, dgs⟩
            ⟨hstat, some 1, false⟩ rest ⟨.ifStmt t el .noneS r, none, false⟩ rfl rfl
            (by simp [isReturnStatement]), openBlock_if]
          dsimp only
          rw [e1, e2, runOpt_none_eq, popClose_cons,
            closeBlock_if_notdone sv fn (.ifStmt t el .noneS r)
              ((1 + (el.length : Int) + 1) - (closedCountArms el : Int)) false
              ⟨hstat, some 1, false⟩ rest (rets ++ n1 ++ n2) dgs
              (by simp [isIfStatement]) (by omega)]
          simp
        · intro x hx
          rcases List.mem_append.mp hx with hx | hx
          · exact v1 x hx
          · exact v2 x hx
  | .ifStmt t el (.someS ea) r, hs, hstat, rest, rets, dgs, hgr => by
      have hs2 : (closedArm t || openArm t) = true ∧ cleanArms el = true
          ∧ (closedArm ea || openArm ea) = true
          ∧ (closedArm t && closedArms el && closedArm ea) = false := by
        have h0 := hs
        simp only [openCleanStmt, Bool.and_eq_true, Bool.not_eq_true'] at h0
        exact ⟨h0.1.1.1, h0.1.1.2, h0.1.2, h0.2⟩
      obtain ⟨hct, hcel, hcea, hguard⟩ := hs2
      have hcle := closedCountArms_le el
      by_cases hc1 : closedArm t = true
      · by_cases hc2 : closedArm ea = true
        · have hnd : closedArms el = false := by
            cases hd : closedArms el with
            | false => rfl
            | true =>
                rw [hc1, hd, hc2] at hguard
                simp at hguard
          have hlt := not_closedArms_count el hnd
          obtain ⟨n1, e1, v1, _⟩ := runArm_closed sv fn t hc1 (.ifStmt t el (.someS ea) r)
            (⟨hstat, some 1, false⟩ :: rest) (1 + (el.length : Int) + 1) rets dgs
            (by simp [isIfStatement])
          obtain ⟨n2, e2, v2⟩ := runArms_clean sv fn el hcel (.ifStmt t el (.someS ea) r)
            (⟨hstat, some 1, false⟩ :: rest) ((1 + (el.length : Int) + 1) - 1) (rets ++ n1) dgs
            (by simp [isIfStatement])
          obtain ⟨n3, e3, v3, _⟩ := runArm_closed sv fn ea hc2 (.ifStmt t el (.someS ea) r)
            (⟨hstat, some 1, false⟩ :: rest)
            ((1 + (el.length : Int) + 1) - 1 - (closedCountArms el : Int)) (rets ++ n1 ++ n2) dgs
            (by simp [isIfStatement])
          refine ⟨n1 ++ n2 ++ n3, ?_, ?_⟩
          · rw [runStmt_if_eq, visit_head_not_return sv ⟨⟨hstat, some 1, false⟩ :: rest, rets, dgs⟩
              ⟨hstat, some 1, false⟩ rest ⟨.ifStmt t el (.someS ea) r, none, false⟩ rfl rfl
              (by simp [isReturnStatement]), openBlock_if]
            dsimp only
            rw [e1, e2, runOpt_some_eq, e3, popClose_cons,
              closeBlock_if_notdone sv fn (.ifStmt t el (.someS ea) r)
                ((1 + (el.length : Int) + 1) - 1 - (closedCountArms el : Int) - 1) false
                ⟨hstat, some 1, false⟩ rest (rets ++ n1 ++ n2 ++ n3) dgs
                (by simp [isIfStatement]) (by omega)]
            simp
          · intro x hx
            rcases List.mem_append.mp hx with hx | hx
            · rcases List.mem_append.mp hx with hx | hx
              · exact v1 x hx
              · exact v2 x hx
            · exact v3 x hx
        · have hoe : openArm ea = true := (Bool.or_eq_true_iff.mp hcea).resolve_left hc2
          obtain ⟨n1, e1, v1, _⟩ := runArm_closed sv fn t hc1 (.ifStmt t el (.someS ea) r)
            (⟨hstat, some 1, false⟩ :: rest) (1 + (el.length : Int) + 1) rets dgs
            (by simp [isIfStatement])
          obtain ⟨n2, e2, v2⟩ := runArms_clean sv fn el hcel (.ifStmt t el (.someS ea) r)
            (⟨hstat, some 1, false⟩ :: rest) ((1 + (el.length : Int) + 1) - 1) (rets ++ n1) dgs
            (by simp [isIfStatement])
          obtain ⟨n3, e3, v3⟩ := runArm_open sv fn ea hoe (.ifStmt t el (.someS ea) r)
            (some ((1 + (el.length : Int) + 1) - 1 - (closedCountArms el : Int)))
            (⟨hstat, some 1, false⟩ :: rest) (rets ++ n1 ++ n2) dgs
            (by simp [isIfStatement])
          refine ⟨n1 ++ n2 ++ n3, ?_, ?_⟩
          · rw [runStmt_if_eq, visit_head_not_return sv ⟨⟨hstat, some 1, false⟩ :: rest, rets, dgs⟩
              ⟨hstat, some 1, false⟩ rest ⟨.ifStmt t el (.someS ea) r, none, false⟩ rfl rfl
              (by simp [isReturnStatement]), openBlock_if]
            dsimp only
            rw [e1, e2, runOpt_some_eq, e3, popClose_cons,
              closeBlock_if_notdone sv fn (.ifStmt t el (.someS ea) r)
                ((1 + (el.length : Int) + 1) - 1 - (closedCountArms el : Int)) false
                ⟨hstat, some 1, false⟩ rest (rets ++ n1 ++ n2 ++ n3) dgs
                (by simp [isIfStatement]) (by omega)]
            simp
          · intro x hx
            rcases List.mem_append.mp hx with hx | hx
            · rcases List.mem_append.mp hx with hx | hx
              · exact v1 x hx
              · exact v2 x hx
            · exact v3 x hx
      · have hot : openArm t = true := (Bool.or_eq_true_iff.mp hct).resolve_left hc1
        obtain ⟨n1, e1, v1⟩ := runArm_open sv fn t hot (.ifStmt t el (.someS ea) r)
          (some (1 + (el.length : Int) + 1)) (⟨hstat, some 1, false⟩ :: rest) rets dgs
          (by simp [isIfStatement])
        obtain ⟨n2, e2, v2⟩ := runArms_clean sv fn el hcel (.ifStmt t el (.someS ea) r)
          (⟨hstat, some 1, false⟩ :: rest) (1 + (el.length : Int) + 1) (rets ++ n1) dgs
          (by simp [isIfStatement])
        by_cases hc2 : closedArm ea = true
        · obtain ⟨n3, e3, v3, _⟩ := runArm_closed sv fn ea hc2 (.ifStmt t el (.someS ea) r)
            (⟨hstat, some 1, false⟩ :: rest)
            ((1 + (el.length : Int) + 1) - (closedCountArms el : Int)) (rets ++ n1 ++ n2) dgs
            (by simp [isIfStatement])
          refine ⟨n1 ++ n2 ++ n3, ?_, ?_⟩
          · rw [runStmt_if_eq, visit_head_not_return sv ⟨⟨hstat, some 1, false⟩ :: rest, rets, dgs⟩
              ⟨hstat, some 1, false⟩ rest ⟨.ifStmt t el (.someS ea) r, none, false⟩ rfl rfl
              (by simp [isReturnStatement]), openBlock_if]
            dsimp only
            rw [e1, e2, runOpt_some_eq, e3, popClose_cons,
              closeBlock_if_notdone sv fn (.ifStmt t el (.someS ea) r)
                ((1 + (el.length : Int) + 1) - (closedCountArms el : Int) - 1) false
                ⟨hstat, some 1, false⟩ rest (rets ++ n1 ++ n2 ++ n3) dgs
                (by simp [isIfStatement]) (by omega)]
            simp
          · intro x hx
            rcases List.mem_append.mp hx with hx | hx
            · rcases List.mem_append.mp hx with hx | hx
              · exact v1 x hx
              · exact v2 x hx
            · exact v3 x hx
        · have hoe : openArm ea = true := (Bool.or_eq_true_iff.mp hcea).resolve_left hc2
          obtain ⟨n3, e3, v3⟩ := runArm_open sv fn ea hoe (.ifStmt t el (.someS ea) r)
            (some ((1 + (el.length : Int) + 1) - (closedCountArms el : Int)))
            (⟨hstat, some 1, false⟩ :: rest) (rets ++ n1 ++ n2) dgs
            (by simp [isIfStatement])
          refine ⟨n1 ++ n2 ++ n3, ?_, ?_⟩
          · rw [runStmt_if_eq, visit_head_not_return sv ⟨⟨hstat, some 1, false⟩ :: rest, rets, dgs⟩
              ⟨hstat, some 1, false⟩ rest ⟨.ifStmt t el (.someS ea) r, none, false⟩ rfl rfl
              (by simp [isReturnStatement]), openBlock_if]
            dsimp only
            rw [e1, e2, runOpt_some_eq, e3, popClose_cons,
              closeBlock_if_notdone sv fn (.ifStmt t el (.someS ea) r)
                ((1 + (el.length : Int) + 1) - (closedCountArms el : Int)) false
                ⟨hstat, some 1, false⟩ rest (rets ++ n1 ++ n2 ++ n3) dgs
                (by simp [isIfStatement]) (by omega)]
            simp
          · intro x hx
            rcases List.mem_append.mp hx with hx | hx
            · rcases List.mem_append.mp hx with hx | hx
              · exact v1 x hx
              · exact v2 x hx
            · exact v3 x hx

theorem runStmt_term (sv : BsLintRules) (fn : FunctionExpression) :
    ∀ (s : Stmt), terminalStmt s = true →
    ∀ (hstat : Stmt) (rest : List StatementInfo) (rets : List ReturnInfo)
      (dgs : List Diagnostic), GoodRest rest →
    ∃ news, runStmt sv fn ⟨⟨hstat, some 1, false⟩ :: rest, rets, dgs⟩ s =
        ⟨⟨hstat, some 1, true⟩ :: rest, rets ++ news, dgs⟩
      ∧ (∀ x ∈ news, x.hasValue = true) ∧ news ≠ []
  | .ret v r, hs, hstat, rest, rets, dgs, hgr => by
      obtain ⟨e, he, hec⟩ : ∃ e, v = .someS e ∧ isCommentStatement e = false := by
        cases v with
        | noneS => simp [terminalStmt] at hs
        | someS e => exact ⟨e, rfl, by simpa [terminalStmt] using hs⟩
      subst he
      refine ⟨[⟨.ret (.someS e) r, true⟩], ?_, by simp, by simp⟩
      rw [runStmt_ret_eq, visit_return_head sv ⟨⟨hstat, some 1, false⟩ :: rest, rets, dgs⟩
        ⟨hstat, some 1, false⟩ rest ⟨.ret (.someS e) r, none, false⟩ (.someS e) r
        rfl hgr rfl rfl rfl]
      have hrv : retHasValue (Stmt.ret (.someS e) r) = true := by
        simp [retHasValue, Stmt.value, hec]
      dsimp only
      rw [hrv]
  | .ifStmt t el (.someS ea) r, hs, hstat, rest, rets, dgs, hgr => by
      have hs2 : closedArm t = true ∧ closedArms el = true ∧ closedArm ea = true := by
        have h0 := hs
        simp only [terminalStmt, Bool.and_eq_true] at h0
        exact ⟨h0.1.1, h0.1.2, h0.2⟩
      obtain ⟨hc1, hD, hc2⟩ := hs2
      have hcc := closedArms_count el hD
      obtain ⟨n1, e1, v1, hne1⟩ := runArm_closed sv fn t hc1 (.ifStmt t el (.someS ea) r)
        (⟨hstat, some 1, false⟩ :: rest) (1 + (el.length : Int) + 1) rets dgs
        (by simp [isIfStatement])
      obtain ⟨n2, e2, v2⟩ := runArms_clean sv fn el (closedArms_cleanArms el hD)
        (.ifStmt t el (.someS ea) r)
        (⟨hstat, some 1, false⟩ :: rest) ((1 + (el.length : Int) + 1) - 1) (rets ++ n1) dgs
        (by simp [isIfStatement])
      obtain ⟨n3, e3, v3, _⟩ := runArm_closed sv fn ea hc2 (.ifStmt t el (.someS ea) r)
        (⟨hstat, some 1, false⟩ :: rest)
        ((1 + (el.length : Int) + 1) - 1 - (closedCountArms el : Int)) (rets ++ n1 ++ n2) dgs
        (by simp [isIfStatement])
      refine ⟨n1 ++ n2 ++ n3, ?_, ?_, ?_⟩
      · rw [runStmt_if_eq, visit_head_not_return sv ⟨⟨hstat, some 1, false⟩ :: rest, rets, dgs⟩
          ⟨hstat, some 1, false⟩ rest ⟨.ifStmt t el (.someS ea) r, none, false⟩ rfl rfl
          (by simp [isReturnStatement]), openBlock_if]
        dsimp only
        rw [e1, e2, runOpt_some_eq, e3, popClose_cons,
          closeBlock_if_done sv fn (.ifStmt t el (.someS ea) r)
            ((1 + (el.length : Int) + 1) - 1 - (closedCountArms el : Int) - 1) false
            hstat (some 1) false rest (rets ++ n1 ++ n2 ++ n3) dgs
            (by simp [isIfStatement]) (by omega)]
        simp
      · intro x hx
        rcases List.mem_append.mp hx with hx | hx
        · rcases List.mem_append.mp hx with hx | hx
          · exact v1 x hx
          · exact v2 x hx
        · exact v3 x hx
      · intro hcontra
        exact hne1 ((List.append_eq_nil.mp (List.append_eq_nil.mp hcontra).1).1)
  | .comment r, hs, hstat, rest, rets, dgs, hgr => by
      exact absurd hs (by simp [terminalStmt])
  | .other r, hs, hstat, rest, rets, dgs, hgr => by
      exact absurd hs (by simp [terminalStmt])
  | .block body r, hs, hstat, rest, rets, dgs, hgr => by
      exact absurd hs (by simp [terminalStmt])
  | .tryBranched arms r, hs, hstat, rest, rets, dgs, hgr => by
      exact absurd hs (by simp [terminalStmt])
  | .ifStmt t el .noneS r, hs, hstat, rest, rets, dgs, hgr => by
      exact absurd hs (by simp [terminalStmt])

theorem runArm_closed (sv : BsLintRules) (fn : FunctionExpression) :
    ∀ (a : Stmt), closedArm a = true →
    ∀ (istat : Stmt) (rest : List StatementInfo) (b : Int)
      (rets : List ReturnInfo) (dgs : List Diagnostic), isIfStatement istat = true →
    ∃ news, runStmt sv fn ⟨⟨istat, some b, false⟩ :: rest, rets, dgs⟩ a =
        ⟨⟨istat, some (b - 1), false⟩ :: rest, rets ++ news, dgs⟩
      ∧ (∀ x ∈ news, x.hasValue = true) ∧ news ≠ []
  | .block body r, ha, istat, rest, b, rets, dgs, hif => by
      have hcl : closedList body = true := by simpa [closedArm] using ha
      obtain ⟨n1, e1, v1, hne⟩ := runList_closed sv fn body hcl (.block body r)
        (⟨istat, some b, false⟩ :: rest) rets dgs (by simpa [GoodRest] using hif)
      refine ⟨n1, ?_, v1, hne⟩
      rw [runStmt_block_eq, visit_head_not_return sv ⟨⟨istat, some b, false⟩ :: rest, rets, dgs⟩
        ⟨istat, some b, false⟩ rest ⟨.block body r, none, false⟩ rfl rfl
        (by simp [isReturnStatement]), openBlock_block]
      dsimp only
      rw [e1, popClose_cons, closeBlock_arm_dec sv fn (.block body r) (some 1) istat b rest
        (rets ++ n1) dgs (by simp [isIfStatement]) hif]
  | .comment r, ha, istat, rest, b, rets, dgs, hif => by
      exact absurd ha (by simp [closedArm])
  | .other r, ha, istat, rest, b, rets, dgs, hif => by
      exact absurd ha (by simp [closedArm])
  | .ret v r, ha, istat, rest, b, rets, dgs, hif => by
      exact absurd ha (by simp [closedArm])
  | .ifStmt t el e r, ha, istat, rest, b, rets, dgs, hif => by
      exact absurd ha (by simp [closedArm])
  | .tryBranched arms r, ha, istat, rest, b, rets, dgs, hif => by
      exact absurd ha (by simp [closedArm])

theorem runArm_open (sv : BsLintRules) (fn : FunctionExpression) :
    ∀ (a : Stmt), openArm a = true →
    ∀ (istat : Stmt) (ibr : Option Int) (rest : List StatementInfo)
      (rets : List ReturnInfo) (dgs : List Diagnostic), isIfStatement istat = true →
    ∃ news, runStmt sv fn ⟨⟨istat, ibr, false⟩ :: rest, rets, dgs⟩ a =
        ⟨⟨istat, ibr, false⟩ :: rest, rets ++ news, dgs⟩
      ∧ ∀ x ∈ news, x.hasValue = true
  | .block body r, ha, istat, ibr, rest, rets, dgs, hif => by
      have hol : openList body = true := by simpa [openArm] using ha
      obtain ⟨n1, e1, v1⟩ := runList_open sv fn body hol (.block body r)
        (⟨istat, ibr, false⟩ :: rest) rets dgs (by simpa [GoodRest] using hif)
      refine ⟨n1, ?_, v1⟩
      rw [runStmt_block_eq, visit_head_not_return sv ⟨⟨istat, ibr, false⟩ :: rest, rets, dgs⟩
        ⟨istat, ibr, false⟩ rest ⟨.block body r, none, false⟩ rfl rfl
        (by simp [isReturnStatement]), openBlock_block]
      dsimp only
      rw [e1, popClose_cons, closeBlock_arm_silent sv fn (.block body r) (some 1)
        ⟨istat, ibr, false⟩ rest (rets ++ n1) dgs (by simp [isIfStatement])]
  | .comment r, ha, istat, ibr, rest, rets, dgs, hif => by
      exact absurd ha (by simp [openArm])
  | .other r, ha, istat, ibr, rest, rets, dgs, hif => by
      exact absurd ha (by simp [openArm])
  | .ret v r, ha, istat, ibr, rest, rets, dgs, hif => by
      exact absurd ha (by simp [openArm])
  | .ifStmt t el e r, ha, istat, ibr, rest, rets, dgs, hif => by
      exact absurd ha (by simp [openArm])
  | .tryBranched arms r, ha, istat, ibr, rest, rets, dgs, hif => by
      exact absurd ha (by simp [openArm])

theorem runArms_clean (sv : BsLintRules) (fn : FunctionExpression) :
    ∀ (l : StmtList), cleanArms l = true →
    ∀ (istat : Stmt) (rest : List StatementInfo) (b : Int)
      (rets : List ReturnInfo) (dgs : List Diagnostic), isIfStatement istat = true →
    ∃ news, runList sv fn ⟨⟨istat, some b, false⟩ :: rest, rets, dgs⟩ l =
        ⟨⟨istat, some (b - (closedCountArms l : Int)), false⟩ :: rest, rets ++ news, dgs⟩
      ∧ ∀ x ∈ news, x.hasValue = true
  | .nil, hl, istat, rest, b, rets, dgs, hif => by
      refine ⟨[], ?_, by simp⟩
      rw [runList_nil_eq]
      simp [closedCountArms]
  | .cons a l, hl, istat, rest, b, rets, dgs, hif => by
      have hsp : (closedArm a || openArm a) = true ∧ cleanArms l = true := by
        have h0 := hl
        simp only [cleanArms, Bool.and_eq_true] at h0
        exact ⟨by simp [h0.1], h0.2⟩
      obtain ⟨hca, hcl⟩ := hsp
      by_cases hc : closedArm a = true
      · obtain ⟨n1, e1, v1, _⟩ := runArm_closed sv fn a hc istat rest b rets dgs hif
        obtain ⟨n2, e2, v2⟩ := runArms_clean sv fn l hcl istat rest (b - 1) (rets ++ n1) dgs hif
        refine ⟨n1 ++ n2, ?_, ?_⟩
        · rw [runList_cons_eq, e1, e2]
          have harith : b - 1 - (closedCountArms l : Int) =
              b - (closedCountArms (StmtList.cons a l) : Int) := by
            simp only [closedCountArms, hc, Bool.toNat_true]
            push_cast
            ring
          rw [harith]
          simp
        · intro x hx
          rcases List.mem_append.mp hx with hx | hx
          · exact v1 x hx
          · exact v2 x hx
      · have hoa : openArm a = true := (Bool.or_eq_true_iff.mp hca).resolve_left hc
        obtain ⟨n1, e1, v1⟩ := runArm_open sv fn a hoa istat (some b) rest rets dgs hif
        obtain ⟨n2, e2, v2⟩ := runArms_clean sv fn l hcl istat rest b (rets ++ n1) dgs hif
        refine ⟨n1 ++ n2, ?_, ?_⟩
        · rw [runList_cons_eq, e1, e2]
          have hcf : closedArm a = false := by simpa using hc
          have harith : b - (closedCountArms l : Int) =
              b - (closedCountArms (StmtList.cons a l) : Int) := by
            simp [closedCountArms, hcf]
          rw [harith]
          simp
        · intro x hx
          rcases List.mem_append.mp hx with hx | hx
          · exact v1 x hx
          · exact v2 x hx

theorem runList_open (sv : BsLintRules) (fn : FunctionExpression) :
    ∀ (l : StmtList), openList l = true →
    ∀ (hstat : Stmt) (rest : List StatementInfo) (rets : List ReturnInfo)
      (dgs : List Diagnostic), GoodRest rest →
    ∃ news, runList sv fn ⟨⟨hstat, some 1, false⟩ :: rest, rets, dgs⟩ l =
        ⟨⟨hstat, some 1, false⟩ :: rest, rets ++ news, dgs⟩
      ∧ ∀ x ∈ news, x.hasValue = true
  | .nil, hl, hstat, rest, rets, dgs, hgr => by
      refine ⟨[], ?_, by simp⟩
      rw [runList_nil_eq]
      simp
  | .cons s l, hl, hstat, rest, rets, dgs, hgr => by
      have hsp : openCleanStmt s = true ∧ openList l = true := by
        have h0 := hl
        simp only [openList, Bool.and_eq_true] at h0
        exact h0
      obtain ⟨hs1, hl1⟩ := hsp
      obtain ⟨n1, e1, v1⟩ := runStmt_open sv fn s hs1 hstat rest rets dgs hgr
      obtain ⟨n2, e2, v2⟩ := runList_open sv fn l hl1 hstat rest (rets ++ n1) dgs hgr
      refine ⟨n1 ++ n2, ?_, ?_⟩
      · rw [runList_cons_eq, e1, e2]
        simp
      · intro x hx
        rcases List.mem_append.mp hx with hx | hx
        · exact v1 x hx
        · exact v2 x hx

theorem runList_closed (sv : BsLintRules) (fn : FunctionExpression) :
    ∀ (l : StmtList), closedList l = true →
    ∀ (hstat : Stmt) (rest : List StatementInfo) (rets : List ReturnInfo)
      (dgs : List Diagnostic), GoodRest rest →
    ∃ news, runList sv fn ⟨⟨hstat, some 1, false⟩ :: rest, rets, dgs⟩ l =
        ⟨⟨hstat, some 1, true⟩ :: rest, rets ++ news, dgs⟩
      ∧ (∀ x ∈ news, x.hasValue = true) ∧ news ≠ []
  | .cons s l, hl, hstat, rest, rets, dgs, hgr => by
      have hl2 : (terminalStmt s = true ∧ commentsOnly l = true)
          ∨ (openCleanStmt s = true ∧ closedList l = true) := by
        have h0 := hl
        simp only [closedList, Bool.or_eq_true, Bool.and_eq_true] at h0
        exact h0
      rcases hl2 with ⟨h1, h2⟩ | ⟨h1, h2⟩
      · obtain ⟨n1, e1, v1, hne⟩ := runStmt_term sv fn s h1 hstat rest rets dgs hgr
        refine ⟨n1, ?_, v1, hne⟩
        rw [runList_cons_eq, e1, runList_comments sv fn l h2 _]
      · obtain ⟨n1, e1, v1⟩ := runStmt_open sv fn s h1 hstat rest rets dgs hgr
        obtain ⟨n2, e2, v2, hne2⟩ := runList_closed sv fn l h2 hstat rest (rets ++ n1) dgs hgr
        refine ⟨n1 ++ n2, ?_, ?_, ?_⟩
        · rw [runList_cons_eq, e1, e2]
          simp
        · intro x hx
          rcases List.mem_append.mp hx with hx | hx
          · exact v1 x hx
          · exact v2 x hx
        · intro hcontra
          exact hne2 (List.append_eq_nil.mp hcontra).2

theorem runList_comments (sv : BsLintRules) (fn : FunctionExpression) :
    ∀ (l : StmtList), commentsOnly l = true → ∀ (st : TrackState), runList sv fn st l = st
  | .nil, hl, st => by rw [runList_nil_eq]
  | .cons s l, hl, st => by
      obtain ⟨hc, hcl⟩ := commentsOnly_cons s l hl
      have hrec := runList_comments sv fn l hcl
      have hs : runStmt sv fn st s = st := by
        cases s with
        | comment r =>
            rw [runStmt_comment_eq, visit_comment sv (lintView st.stack) st
              ⟨.comment r, none, false⟩ rfl]
        | ret v r => simp [isCommentStatement] at hc
        | ifStmt t el e r => simp [isCommentStatement] at hc
        | block body r => simp [isCommentStatement] at hc
        | tryBranched arms r => simp [isCommentStatement] at hc
        | other r => simp [isCommentStatement] at hc
      rw [runList_cons_eq, hs, hrec st]

end

/-- The finalizer is silent on a function with a non-void return type
annotation whose outermost frame returned and whose captured returns
all carry values. -/
theorem finalize_allvalue_closed (sv : BsLintRules) (fn : FunctionExpression)
    (tk : Token) (news : List ReturnInfo) (cstat : Stmt) (cbr : Option Int)
    (h1 : fn.returnTypeToken = some tk) (h2 : tk.kind ≠ TokenKind.Void)
    (hv : ∀ x ∈ news, x.hasValue = true) (hne : news ≠ []) :
    finalize sv fn news ⟨cstat, cbr, true⟩ = [] := by
  have hfilter : news.filter (fun r => r.hasValue) = news :=
    List.filter_eq_self.mpr (by simpa using hv)
  have hnv : ¬((fn.returnTypeToken.map Token.kind) = some TokenKind.Void) := by
    simp [h1, h2]
  have hlen : decide (news.length = 0) = false := by
    cases news with
    | nil => exact absurd rfl hne
    | cons a t => simp
  simp only [finalize]
  rw [if_neg hnv, hfilter]
  simp [hlen]

/-- C8 counterexample: a function whose declared type is value-returning
and in which every execution path ends in a value-carrying return can
still draw a diagnostic — a statement placed after the return is
unreachable, so the full analysis emits an UnreachableCode diagnostic
rather than none. -/
theorem claim_C8_counterexample :
    allPathsReturnValue
        (.cons (.ret (.someS (.other none)) (some ⟨20, 25⟩))
          (.cons (.other (some ⟨30, 35⟩)) .nil)) = true
    ∧ ((⟨some ⟨.Function, ⟨0, 8⟩⟩, ⟨.Other, ⟨8, 9⟩⟩, some ⟨.Other, ⟨12, 19⟩⟩,
          ⟨.Other, ⟨9, 10⟩⟩⟩ : FunctionExpression).returnTypeToken.map Token.kind)
        ≠ some TokenKind.Void
    ∧ runFunction ⟨3, 4⟩
        ⟨some ⟨.Function, ⟨0, 8⟩⟩, ⟨.Other, ⟨8, 9⟩⟩, some ⟨.Other, ⟨12, 19⟩⟩, ⟨.Other, ⟨9, 10⟩⟩⟩
        (.cons (.ret (.someS (.other none)) (some ⟨20, 25⟩))
          (.cons (.other (some ⟨30, 35⟩)) .nil)) =
      [{ severity := 3
         code := ReturnLintError.UnreachableCode
         message := "Unreachable code"
         range := some ⟨30, 35⟩
         tags := [.Unnecessary] }] :=
  ⟨rfl, by decide, rfl⟩

/-- C8 (amended): for every callback sequence of a function body tree
whose declared return type is a non-void annotation, in which all
branching is by if constructs with block arms, every execution path
ends in a value-carrying return, and no statement other than a comment
sits in an unreachable position (closedList), the full analysis emits
zero diagnostics. -/
theorem claim_C8_all_paths_silent (sv : BsLintRules) (fn : FunctionExpression)
    (body : StmtList) (tk : Token)
    (h1 : fn.returnTypeToken = some tk) (h2 : tk.kind ≠ TokenKind.Void)
    (h3 : closedList body = true) :
    runFunction sv fn body = [] := by
  obtain ⟨news, e1, v1, hne⟩ := runList_closed sv fn body h3 (.block body none)
    [] [] [] trivial
  have hvis : visitStatement sv (lintView ((⟨[], [], []⟩ : TrackState)).stack)
      ⟨[], [], []⟩ ⟨.block body none, none, false⟩ = ⟨[], [], []⟩ :=
    visit_empty_stack sv ⟨[], [], []⟩ ⟨.block body none, none, false⟩ rfl
      (by simp [isReturnStatement])
  have hrun : runStmt sv fn ⟨[], [], []⟩ (Stmt.block body none) =
      ⟨[], news, finalize sv fn news ⟨.block body none, some 1, true⟩⟩ := by
    rw [runStmt_block_eq, hvis, openBlock_block]
    dsimp only
    rw [e1, popClose_cons,
      close_top sv fn ⟨[], [] ++ news, []⟩ ⟨.block body none, some 1, true⟩ rfl]
    simp
  show (runStmt sv fn ⟨[], [], []⟩ (Stmt.block body none)).diagnostics = []
  rw [hrun]
  exact finalize_allvalue_closed sv fn tk news (.block body none) (some 1) h1 h2 v1 hne

/-- Witness for C8 (amended): a function body consisting of one
value-carrying return draws no diagnostic. -/
theorem claim_C8_all_paths_silent_witness :
    runFunction ⟨1, 2⟩
        ⟨some ⟨.Function, ⟨0, 8⟩⟩, ⟨.Other, ⟨8, 9⟩⟩, some ⟨.Other, ⟨12, 19⟩⟩, ⟨.Other, ⟨9, 10⟩⟩⟩
        (.cons (.ret (.someS (.other none)) (some ⟨20, 25⟩)) .nil) = [] :=
  claim_C8_all_paths_silent ⟨1, 2⟩
    ⟨some ⟨.Function, ⟨0, 8⟩⟩, ⟨.Other, ⟨8, 9⟩⟩, some ⟨.Other, ⟨12, 19⟩⟩, ⟨.Other, ⟨9, 10⟩⟩⟩
    (.cons (.ret (.someS (.other none)) (some ⟨20, 25⟩)) .nil)
    ⟨.Other, ⟨12, 19⟩⟩ rfl (by decide) (by decide)

end ReturnTracking
